import Mathlib

/-!
# Verification of the `ttyui` terminal input toolkit

Shallow embedding of `src/readline.rs` and `src/selector.rs`.

Modelling conventions:

* A Rust `String` is modelled as a `List Char` together with explicit UTF-8
  byte arithmetic: every index the source manipulates (`Buffer.index`, the
  results of `match_indices`, the arguments of `String::insert`,
  `String::remove` and of slicing) is a **byte offset**, exactly as in Rust.
  Operations that panic in Rust (insert/remove/slice off a character
  boundary, arithmetic underflow on `usize`) return `none` / a `panicked`
  outcome here.
* The `console::Term` capability is modelled as a script: a list of results
  for `read_key` (`Except IOError Key`) and a list of results for the
  unit-returning primitives (`write!`, `clear_line`, `clear_screen`,
  `clear_chars`, `move_cursor_left`, `move_cursor_right`, `write_line`),
  consumed one per call; `none` means the call succeeds, `some e` means it
  fails with I/O error `e`, and an exhausted unit list means all further
  unit calls succeed.  Cursor positioning is display-only state and carries
  no information back into the program, so the unit primitives only
  contribute their success/failure.
* `chrono::DateTime<Local>` is modelled as a civil date plus a time of day
  (timezone/DST behaviour is not exercised by any claim).
-/

/-! ## Terminal capability model -/

/-- Error kinds of `std::io::Error` that appear in the development
(`ErrorKind::Other` is the one the source constructs for "quit"). -/
inductive ErrorKind where
  | other
  | brokenPipe
  | notConnected
deriving DecidableEq

/-- Model of `std::io::Error`: a kind plus its message. -/
structure IOError where
  kind : ErrorKind
  msg : String
deriving DecidableEq

/-- Model of `console::Key` (only the variants the source matches on;
`Other` stands for every remaining variant, which the source ignores). -/
inductive Key where
  | Enter
  | Home
  | End
  | ArrowLeft
  | ArrowRight
  | ArrowUp
  | ArrowDown
  | Backspace
  | Del
  | Escape
  | Char : Char → Key
  | Other
deriving DecidableEq

/-- Outcome of running one of the blocking entry points against a terminal
script: normal return, a propagated `io::Error`, a Rust panic (`unwrap` on
an `Err`, slice/arithmetic panic), or blocking forever because the key
script is exhausted. -/
inductive Res (α : Type) where
  | ok : α → Res α
  | err : IOError → Res α
  | panicked : Res α
  | blocked : Res α
deriving DecidableEq

/-- The scripted terminal: results for successive `read_key` calls and for
successive unit-returning terminal calls. -/
structure TermState where
  keys : List (Except IOError Key)
  unitResults : List (Option IOError)

/-- Run `n` consecutive unit-returning terminal calls (each forwarded with
`?` in the source): the first scheduled failure aborts with that error;
an exhausted schedule means success. -/
def runUnits : Nat → List (Option IOError) → Except IOError (List (Option IOError))
  | 0, us => Except.ok us
  | n + 1, [] => runUnits n []
  | n + 1, none :: us => runUnits n us
  | _ + 1, some e :: _ => Except.error e

/-! ## UTF-8 byte arithmetic for the `String` model -/

/-- Number of bytes of the UTF-8 encoding of a scalar value (1 to 4). -/
def utf8Len (c : Char) : Nat :=
  if c.toNat < 0x80 then 1
  else if c.toNat < 0x800 then 2
  else if c.toNat < 0x10000 then 3
  else 4

/-- `String::len`: total number of UTF-8 bytes. -/
def byteLen : List Char → Nat
  | [] => 0
  | c :: cs => utf8Len c + byteLen cs

/-- `String::is_char_boundary`: `i` is 0, the total length, or the first
byte of a character. -/
def isBoundary : List Char → Nat → Bool
  | _, 0 => true
  | [], _ + 1 => false
  | c :: cs, i + 1 =>
    if i + 1 < utf8Len c then false else isBoundary cs (i + 1 - utf8Len c)

/-- `&s[0..i]` (panics — `none` — off a character boundary or past the
end). -/
def takeBytes : List Char → Nat → Option (List Char)
  | _, 0 => some []
  | [], _ + 1 => none
  | c :: cs, i + 1 =>
    if i + 1 < utf8Len c then none
    else (takeBytes cs (i + 1 - utf8Len c)).map (c :: ·)

/-- `&s[i..s.len()]` (panics — `none` — off a character boundary or past
the end). -/
def dropBytes : List Char → Nat → Option (List Char)
  | s, 0 => some s
  | [], _ + 1 => none
  | c :: cs, i + 1 =>
    if i + 1 < utf8Len c then none else dropBytes cs (i + 1 - utf8Len c)

/-- `String::insert(i, c)` (panics — `none` — off a character boundary). -/
def insertAt : List Char → Nat → Char → Option (List Char)
  | s, 0, c => some (c :: s)
  | [], _ + 1, _ => none
  | d :: ds, i + 1, c =>
    if i + 1 < utf8Len d then none
    else (insertAt ds (i + 1 - utf8Len d) c).map (d :: ·)

/-- `String::remove(i)` (panics — `none` — off a character boundary or at
`i ≥ len`); drops the character starting at byte `i`. -/
def removeAt : List Char → Nat → Option (List Char)
  | [], _ => none
  | _ :: ds, 0 => some ds
  | d :: ds, i + 1 =>
    if i + 1 < utf8Len d then none
    else (removeAt ds (i + 1 - utf8Len d)).map (d :: ·)

/-- `text.match_indices(' ')`: ascending byte offsets of every space
character, starting from base offset `off`. -/
def spaceIndices : List Char → Nat → List Nat
  | [], _ => []
  | c :: cs, off =>
    if c = ' ' then off :: spaceIndices cs (off + utf8Len c)
    else spaceIndices cs (off + utf8Len c)

/-! ## `readline.rs`: the line-edit buffer

The terminal calls inside each key handler only move/redraw the display
(they never feed data back into the buffer), so the handlers are modelled
as their pure state effect on `(text, index)`; `none` marks the executions
in which the source panics (string operation off a character boundary, or
`usize` underflow in `text.len() - index`).  The `Key` value each handler
returns is a constant and is reproduced by the `read_line` loop. -/

/-- `Buffer` state from `readline.rs` (the `Term` handle lives in the
terminal script; `debug` is write-only in the source). -/
structure Buffer where
  debug : Bool
  double_line_response : Bool
  terminate_on_up_down : Bool
  index : Nat
  /-- the display-prefix string (`prefix` in the source, renamed because
  that word is reserved in Lean) -/
  pfix : List Char
  text : List Char
deriving DecidableEq

/-- `Buffer::new()`. -/
def Buffer.new : Buffer :=
  { debug := false, double_line_response := false, terminate_on_up_down := false
    index := 0, pfix := [], text := [] }

/-- `Buffer::from(text)` (named `fromText` because `from` is reserved). -/
def Buffer.fromText (text : List Char) : Buffer :=
  { debug := false, double_line_response := false, terminate_on_up_down := false
    index := 0, pfix := [], text := text }

/-- `Buffer::enter`: with `double_line_response` set, insert `'\n'` at the
cursor index; otherwise leave the state alone. -/
def Buffer.enter (b : Buffer) : Option Buffer :=
  if b.double_line_response then
    (insertAt b.text b.index '\n').map fun t => { b with text := t }
  else some b

/-- `Buffer::home`: `index := 0` (the `move_cursor_left(index)` call is
display-only). -/
def Buffer.home (b : Buffer) : Buffer :=
  { b with index := 0 }

/-- `Buffer::end`: `index := text.len()`; the source first computes
`text.len() - self.index` for the cursor move, which underflows (panics)
when `index > text.len()`. -/
def Buffer.toEnd (b : Buffer) : Option Buffer :=
  if byteLen b.text < b.index then none
  else some { b with index := byteLen b.text }

/-- `Buffer::char(x)`: the source computes `text.len() - index` (underflow
panics), splices `x` into `text` at byte `index` (`String::insert` panics
off a character boundary), then does `index += 1` — one **byte**. -/
def Buffer.char (b : Buffer) (x : Char) : Option Buffer :=
  if byteLen b.text < b.index then none
  else (insertAt b.text b.index x).map fun t =>
    { b with text := t, index := b.index + 1 }

/-- `Buffer::backspace`: no-op at `index == 0`; otherwise remove the
character starting at byte `index - 1` and decrement `index`. -/
def Buffer.backspace (b : Buffer) : Option Buffer :=
  if 0 < b.index then
    (removeAt b.text (b.index - 1)).map fun t =>
      { b with text := t, index := b.index - 1 }
  else some b

/-- `Buffer::del`: no-op unless `text.len() > 0 && text.len() > index`;
otherwise remove the character starting at byte `index`. -/
def Buffer.del (b : Buffer) : Option Buffer :=
  if 0 < byteLen b.text ∧ b.index < byteLen b.text then
    (removeAt b.text b.index).map fun t => { b with text := t }
  else some b

/-- `Buffer::word_forward`: collect the space offsets, append `text.len()`,
and move the cursor to the first entry strictly greater than `index`. -/
def Buffer.word_forward (b : Buffer) : Buffer :=
  match (spaceIndices b.text 0 ++ [byteLen b.text]).find?
      (fun i => decide (b.index < i)) with
  | some i => { b with index := i }
  | none => b

/-- `Buffer::word_backword`: collect `space offset + 1` for every space,
prepend 0, reverse, and move to the first entry strictly less than
`index`. -/
def Buffer.word_backword (b : Buffer) : Buffer :=
  match ((0 :: (spaceIndices b.text 0).map (· + 1)).reverse).find?
      (fun i => decide (i < b.index)) with
  | some i => { b with index := i }
  | none => b

/-- `Buffer::word_backspace`: `target` is the head of the reversed list
`0 :: (space offsets < index)`; unless the text is empty, replace `text`
by `text[0..target] + text[index..len]` (slicing panics — `none` — when
`index` is not a character boundary) and set `index := target`. -/
def Buffer.word_backspace (b : Buffer) : Option Buffer :=
  let ids := ((0 :: (spaceIndices b.text 0).filter
      (fun n => decide (n < b.index)))).reverse
  if byteLen b.text ≠ 0 then
    match ids.head? with
    | none => none
    | some target =>
      match takeBytes b.text target, dropBytes b.text b.index with
      | some pre, some post =>
        some { b with text := pre ++ post, index := target }
      | _, _ => none
  else some b

/-- `Buffer::word_delete`: `target` is the first element of
`(space offsets > index) ++ [text.len()]`; replace `text` by
`text[0..index] + text[target..len]` (slicing panics — `none` — when
`index` is not a character boundary or exceeds the length). -/
def Buffer.word_delete (b : Buffer) : Option Buffer :=
  let target := (((spaceIndices b.text 0).filter
      (fun n => decide (b.index < n))) ++ [byteLen b.text]).headD 0
  match takeBytes b.text b.index, dropBytes b.text target with
  | some pre, some post => some { b with text := pre ++ post }
  | _, _ => none

/-- `Buffer::left`: single-byte cursor move, no-op at `index == 0`. -/
def Buffer.left (b : Buffer) : Buffer :=
  if 0 < b.index then { b with index := b.index - 1 } else b

/-- `Buffer::right`: single-byte cursor move, no-op at
`index == text.len()`. -/
def Buffer.right (b : Buffer) : Buffer :=
  if b.index < byteLen b.text then { b with index := b.index + 1 } else b

/-- The twelve edit operations of the spec, in source terms. -/
inductive EditOp where
  | insertChar : Char → EditOp
  | backspace
  | delete
  | moveHome
  | moveEnd
  | moveLeft
  | moveRight
  | wordForward
  | wordBackward
  | wordDeleteForward
  | wordDeleteBackward
  | acceptLine
deriving DecidableEq

/-- State effect of one edit operation (`none` = the source panics). -/
def applyOp : EditOp → Buffer → Option Buffer
  | .insertChar c, b => b.char c
  | .backspace, b => b.backspace
  | .delete, b => b.del
  | .moveHome, b => some b.home
  | .moveEnd, b => b.toEnd
  | .moveLeft, b => some b.left
  | .moveRight, b => some b.right
  | .wordForward, b => some b.word_forward
  | .wordBackward, b => some b.word_backword
  | .wordDeleteForward, b => b.word_delete
  | .wordDeleteBackward, b => b.word_backspace
  | .acceptLine, b => b.enter

/-- Run a sequence of edit operations. -/
def applySeq : List EditOp → Buffer → Option Buffer
  | [], b => some b
  | op :: ops, b => (applyOp op b).bind (applySeq ops)

/-- The cursor invariant `0 ≤ index ≤ len(text)` (the lower bound is
carried by `Nat`). -/
def BufInv (b : Buffer) : Prop := b.index ≤ byteLen b.text

instance (b : Buffer) : Decidable (BufInv b) := by
  unfold BufInv; infer_instance

/-- Outcome of running one key handler against the unit-call schedule:
the mutated buffer with the remaining schedule, a propagated I/O error
from one of the handler's own terminal calls (each forwarded with `?` in
the source), or a panic. -/
inductive Step (α : Type) where
  | ok : α → Step α
  | err : IOError → Step α
  | panicked : Step α

/-- `Buffer::home` with its terminal call: `move_cursor_left(index)` (1
unit call), then the state effect. -/
def homeT (b : Buffer) (us : List (Option IOError)) :
    Step (Buffer × List (Option IOError)) :=
  match runUnits 1 us with
  | Except.error e => Step.err e
  | Except.ok us1 => Step.ok (b.home, us1)

/-- `Buffer::end` with its terminal call: the argument
`text.len() - self.index` underflows (panics) first, then
`move_cursor_right` (1 unit call), then the state effect. -/
def endT (b : Buffer) (us : List (Option IOError)) :
    Step (Buffer × List (Option IOError)) :=
  match b.toEnd with
  | none => Step.panicked
  | some b' =>
    match runUnits 1 us with
    | Except.error e => Step.err e
    | Except.ok us1 => Step.ok (b', us1)

/-- `Buffer::char` with its terminal calls, in source order: the
`text.len() - index` underflow panic, `move_cursor_right` and
`clear_chars` (2 unit calls), the `String::insert` boundary panic, then
the tail `write!` and `move_cursor_left` (2 unit calls; the tail slice
starts at the freshly inserted character, hence on a boundary).  The
state effect is exactly `Buffer.char`. -/
def charT (b : Buffer) (x : Char) (us : List (Option IOError)) :
    Step (Buffer × List (Option IOError)) :=
  if byteLen b.text < b.index then Step.panicked
  else
    match runUnits 2 us with
    | Except.error e => Step.err e
    | Except.ok us1 =>
      match b.char x with
      | none => Step.panicked
      | some b' =>
        match runUnits 2 us1 with
        | Except.error e => Step.err e
        | Except.ok us2 => Step.ok (b', us2)

/-- `Buffer::backspace` with its terminal calls: when `index > 0`,
`clear_line`, `move_cursor_left(len + prefix len)` and the prefix
`write!` (3 unit calls), the `String::remove(index - 1)` boundary panic,
then the text `write!` and `move_cursor_left` (2 unit calls); the state
effect is exactly `Buffer.backspace`.  At `index == 0` no terminal call
is made. -/
def backspaceT (b : Buffer) (us : List (Option IOError)) :
    Step (Buffer × List (Option IOError)) :=
  if 0 < b.index then
    match runUnits 3 us with
    | Except.error e => Step.err e
    | Except.ok us1 =>
      match b.backspace with
      | none => Step.panicked
      | some b' =>
        match runUnits 2 us1 with
        | Except.error e => Step.err e
        | Except.ok us2 => Step.ok (b', us2)
  else Step.ok (b, us)

/-- `Buffer::del` with its terminal calls: under the
`len > 0 && len > index` guard, the `String::remove(index)` boundary
panic comes first, then `clear_line`, `write!` and `move_cursor_left`
(3 unit calls); the state effect is exactly `Buffer.del`. -/
def delT (b : Buffer) (us : List (Option IOError)) :
    Step (Buffer × List (Option IOError)) :=
  if 0 < byteLen b.text ∧ b.index < byteLen b.text then
    match b.del with
    | none => Step.panicked
    | some b' =>
      match runUnits 3 us with
      | Except.error e => Step.err e
      | Except.ok us1 => Step.ok (b', us1)
  else Step.ok (b, us)

/-- `Buffer::word_forward` with its terminal call: when a target offset
is found, one `move_cursor_right` (1 unit call) before the cursor
update; otherwise no terminal call.  Same target computation as
`Buffer.word_forward`. -/
def word_forwardT (b : Buffer) (us : List (Option IOError)) :
    Step (Buffer × List (Option IOError)) :=
  match (spaceIndices b.text 0 ++ [byteLen b.text]).find?
      (fun i => decide (b.index < i)) with
  | some i =>
    match runUnits 1 us with
    | Except.error e => Step.err e
    | Except.ok us1 => Step.ok ({ b with index := i }, us1)
  | none => Step.ok (b, us)

/-- `Buffer::word_backword` with its terminal call: when a target offset
is found, one `move_cursor_left` (1 unit call) before the cursor update;
otherwise no terminal call.  Same target computation as
`Buffer.word_backword`. -/
def word_backwordT (b : Buffer) (us : List (Option IOError)) :
    Step (Buffer × List (Option IOError)) :=
  match ((0 :: (spaceIndices b.text 0).map (· + 1)).reverse).find?
      (fun i => decide (i < b.index)) with
  | some i =>
    match runUnits 1 us with
    | Except.error e => Step.err e
    | Except.ok us1 => Step.ok ({ b with index := i }, us1)
  | none => Step.ok (b, us)

/-- `Buffer::word_backspace` with its terminal calls: when the text is
nonempty, the slicing panic comes first (inside `Buffer.word_backspace`),
then `clear_line`, `write!` and `move_cursor_left` (3 unit calls); on an
empty text no terminal call is made. -/
def word_backspaceT (b : Buffer) (us : List (Option IOError)) :
    Step (Buffer × List (Option IOError)) :=
  if byteLen b.text ≠ 0 then
    match b.word_backspace with
    | none => Step.panicked
    | some b' =>
      match runUnits 3 us with
      | Except.error e => Step.err e
      | Except.ok us1 => Step.ok (b', us1)
  else Step.ok (b, us)

/-- `Buffer::word_delete` with its terminal calls: the slicing panic
first (inside `Buffer.word_delete`), then `clear_line`, `write!` and
`move_cursor_left` (3 unit calls). -/
def word_deleteT (b : Buffer) (us : List (Option IOError)) :
    Step (Buffer × List (Option IOError)) :=
  match b.word_delete with
  | none => Step.panicked
  | some b' =>
    match runUnits 3 us with
    | Except.error e => Step.err e
    | Except.ok us1 => Step.ok (b', us1)

/-- `Buffer::left` with its terminal call: one `move_cursor_left(1)`
(1 unit call) when `index > 0`, else none. -/
def leftT (b : Buffer) (us : List (Option IOError)) :
    Step (Buffer × List (Option IOError)) :=
  if 0 < b.index then
    match runUnits 1 us with
    | Except.error e => Step.err e
    | Except.ok us1 => Step.ok (b.left, us1)
  else Step.ok (b, us)

/-- `Buffer::right` with its terminal call: one `move_cursor_right(1)`
(1 unit call) when `index < text.len()`, else none. -/
def rightT (b : Buffer) (us : List (Option IOError)) :
    Step (Buffer × List (Option IOError)) :=
  if b.index < byteLen b.text then
    match runUnits 1 us with
    | Except.error e => Step.err e
    | Except.ok us1 => Step.ok (b.right, us1)
  else Step.ok (b, us)

/-- The `read_line` dispatch loop over the key script and the unit-call
schedule.  Each iteration consumes one key (two for an Escape pair) and
each handler consumes its own unit terminal results, all forwarded with
`?` in the source.  A failing `read_key` is forwarded with `?`; a
panicking handler yields `panicked`; an exhausted key script blocks.
`Buffer::enter` makes no terminal call. -/
def readLineLoop (b : Buffer) (keys : List (Except IOError Key))
    (us : List (Option IOError)) : Res (Key × Buffer) :=
  match keys with
  | [] => Res.blocked
  | Except.error e :: _ => Res.err e
  | Except.ok k :: rest =>
    match k with
    | Key.Enter =>
      match b.enter with
      | none => Res.panicked
      | some b' => Res.ok (Key.Enter, b')
    | Key.Home =>
      match homeT b us with
      | Step.err e => Res.err e
      | Step.panicked => Res.panicked
      | Step.ok (b', us') => readLineLoop b' rest us'
    | Key.End =>
      match endT b us with
      | Step.err e => Res.err e
      | Step.panicked => Res.panicked
      | Step.ok (b', us') => readLineLoop b' rest us'
    | Key.ArrowRight =>
      match rightT b us with
      | Step.err e => Res.err e
      | Step.panicked => Res.panicked
      | Step.ok (b', us') => readLineLoop b' rest us'
    | Key.ArrowLeft =>
      match leftT b us with
      | Step.err e => Res.err e
      | Step.panicked => Res.panicked
      | Step.ok (b', us') => readLineLoop b' rest us'
    | Key.Backspace =>
      match backspaceT b us with
      | Step.err e => Res.err e
      | Step.panicked => Res.panicked
      | Step.ok (b', us') => readLineLoop b' rest us'
    | Key.Del =>
      match delT b us with
      | Step.err e => Res.err e
      | Step.panicked => Res.panicked
      | Step.ok (b', us') => readLineLoop b' rest us'
    | Key.Char x =>
      match charT b x us with
      | Step.err e => Res.err e
      | Step.panicked => Res.panicked
      | Step.ok (b', us') => readLineLoop b' rest us'
    | Key.Escape =>
      match rest with
      | [] => Res.blocked
      | Except.error e :: _ => Res.err e
      | Except.ok k2 :: rest2 =>
        match k2 with
        | Key.Char 'f' =>
          match word_forwardT b us with
          | Step.err e => Res.err e
          | Step.panicked => Res.panicked
          | Step.ok (b', us') => readLineLoop b' rest2 us'
        | Key.Char 'b' =>
          match word_backwordT b us with
          | Step.err e => Res.err e
          | Step.panicked => Res.panicked
          | Step.ok (b', us') => readLineLoop b' rest2 us'
        | Key.Char 'd' =>
          match word_deleteT b us with
          | Step.err e => Res.err e
          | Step.panicked => Res.panicked
          | Step.ok (b', us') => readLineLoop b' rest2 us'
        | Key.Backspace =>
          match word_backspaceT b us with
          | Step.err e => Res.err e
          | Step.panicked => Res.panicked
          | Step.ok (b', us') => readLineLoop b' rest2 us'
        | _ => readLineLoop b rest2 us
    | Key.ArrowUp =>
      if b.terminate_on_up_down then Res.ok (Key.ArrowUp, b)
      else readLineLoop b rest us
    | Key.ArrowDown =>
      if b.terminate_on_up_down then Res.ok (Key.ArrowDown, b)
      else readLineLoop b rest us
    | Key.Other => readLineLoop b rest us
termination_by keys.length
decreasing_by all_goals (simp_all; try omega)

/-- `Buffer::read_line`: write the prefix (one unit terminal call,
forwarded with `?`), then run the dispatch loop on the remaining
schedule. -/
def read_line (b : Buffer) (t : TermState) : Res (Key × Buffer) :=
  match runUnits 1 t.unitResults with
  | Except.error e => Res.err e
  | Except.ok us1 => readLineLoop b t.keys us1

/-! ## `selector.rs`: calendar arithmetic (`chrono` model)

`chrono::DateTime<Local>` is modelled as a civil date plus a time of day.
`checked_add_months`/`checked_sub_months` shift the month count and clamp
the day-of-month to the length of the target month (chrono's documented
behaviour); `checked_add_days`/`checked_sub_days` with `Days::new(1)` are
the civil-date successor/predecessor; adding or subtracting a
`chrono::Duration` of one hour/minute/second shifts the time of day by
exactly that amount, carrying into the date. -/

/-- Proleptic-Gregorian civil date. -/
structure CivilDate where
  year : Int
  month : Nat
  day : Nat
deriving DecidableEq

/-- Gregorian leap-year rule. -/
def isLeap (y : Int) : Bool :=
  decide (y % 4 = 0 ∧ (¬ y % 100 = 0 ∨ y % 400 = 0))

/-- Days in a month of a given year. -/
def daysInMonth (y : Int) (m : Nat) : Nat :=
  if m = 2 then (if isLeap y then 29 else 28)
  else if m = 4 ∨ m = 6 ∨ m = 9 ∨ m = 11 then 30
  else 31

/-- Shift a civil date by `delta` calendar months, clamping the
day-of-month into the target month (the common core of chrono's
`checked_add_months` and `checked_sub_months`). -/
def monthsShift (delta : Int) (d : CivilDate) : CivilDate :=
  let m0 : Int := d.year * 12 + ((d.month : Int) - 1) + delta
  let y : Int := m0 / 12
  let m : Nat := (m0 % 12).toNat + 1
  { year := y, month := m, day := min d.day (daysInMonth y m) }

/-- `checked_add_days(Days::new(1))` on the date component: civil
successor. -/
def succDate (d : CivilDate) : CivilDate :=
  if d.day < daysInMonth d.year d.month then { d with day := d.day + 1 }
  else if d.month < 12 then { d with month := d.month + 1, day := 1 }
  else { year := d.year + 1, month := 1, day := 1 }

/-- `checked_sub_days(Days::new(1))` on the date component: civil
predecessor. -/
def predDate (d : CivilDate) : CivilDate :=
  if 1 < d.day then { d with day := d.day - 1 }
  else if 1 < d.month then
    { d with month := d.month - 1, day := daysInMonth d.year (d.month - 1) }
  else { year := d.year - 1, month := 12, day := 31 }

/-- `chrono::DateTime<Local>`: civil date plus time of day (second
resolution, as in the spec). -/
structure DateTime where
  date : CivilDate
  hour : Nat
  minute : Nat
  second : Nat
deriving DecidableEq

/-- `date.checked_add_months(Months::new(n)).unwrap()`. -/
def checked_add_months (n : Nat) (t : DateTime) : DateTime :=
  { t with date := monthsShift (n : Int) t.date }

/-- `date.checked_sub_months(Months::new(n)).unwrap()`. -/
def checked_sub_months (n : Nat) (t : DateTime) : DateTime :=
  { t with date := monthsShift (-(n : Int)) t.date }

/-- `date.checked_add_days(Days::new(1)).unwrap()`. -/
def checked_add_day (t : DateTime) : DateTime :=
  { t with date := succDate t.date }

/-- `date.checked_sub_days(Days::new(1)).unwrap()`. -/
def checked_sub_day (t : DateTime) : DateTime :=
  { t with date := predDate t.date }

/-- `date + Duration::hours(1)`. -/
def addHour (t : DateTime) : DateTime :=
  if t.hour < 23 then { t with hour := t.hour + 1 }
  else { t with date := succDate t.date, hour := 0 }

/-- `date - Duration::hours(1)`. -/
def subHour (t : DateTime) : DateTime :=
  if 0 < t.hour then { t with hour := t.hour - 1 }
  else { t with date := predDate t.date, hour := 23 }

/-- `date + Duration::minutes(1)`. -/
def addMinute (t : DateTime) : DateTime :=
  if t.minute < 59 then { t with minute := t.minute + 1 }
  else { addHour t with minute := 0 }

/-- `date - Duration::minutes(1)`. -/
def subMinute (t : DateTime) : DateTime :=
  if 0 < t.minute then { t with minute := t.minute - 1 }
  else { subHour t with minute := 59 }

/-- `date + Duration::seconds(1)`. -/
def addSecond (t : DateTime) : DateTime :=
  if t.second < 59 then { t with second := t.second + 1 }
  else { addMinute t with second := 0 }

/-- `date - Duration::seconds(1)`. -/
def subSecond (t : DateTime) : DateTime :=
  if 0 < t.second then { t with second := t.second - 1 }
  else { subMinute t with second := 59 }

/-- A well-formed `chrono` value: month in 1..12, day in 1..(month
length), time fields in range. -/
def ValidDT (t : DateTime) : Prop :=
  1 ≤ t.date.month ∧ t.date.month ≤ 12 ∧
  1 ≤ t.date.day ∧ t.date.day ≤ daysInMonth t.date.year t.date.month ∧
  t.hour ≤ 23 ∧ t.minute ≤ 59 ∧ t.second ≤ 59

instance (t : DateTime) : Decidable (ValidDT t) := by
  unfold ValidDT; infer_instance

/-! ## `selector.rs`: the date selector -/

/-- `DateTimeField` from `selector.rs`. -/
inductive DateTimeField where
  | Day
  | Month
  | Year
  | Hour
  | Minute
  | Second
deriving DecidableEq

/-- `DateTimeField::switch_prev`. -/
def switch_prev : DateTimeField → DateTimeField
  | .Year => .Second
  | .Month => .Year
  | .Day => .Month
  | .Hour => .Day
  | .Minute => .Hour
  | .Second => .Minute

/-- `DateTimeField::switch_next`. -/
def switch_next : DateTimeField → DateTimeField
  | .Year => .Month
  | .Month => .Day
  | .Day => .Hour
  | .Hour => .Minute
  | .Minute => .Second
  | .Second => .Year

/-- `DateSelector` state (the `Term` handle lives in the terminal
script). -/
structure DateSelector where
  name : String
  has_time : Bool
  active_field : DateTimeField
  date : DateTime
deriving DecidableEq

/-- `DateSelector::new()` / `DateSelector::from(date)`: `new` uses
`Local::now()` for `d0`, `from` a caller-supplied timestamp; both start on
the `Day` field in date-only mode. -/
def DateSelector.fromDate (d0 : DateTime) : DateSelector :=
  { name := "due date", has_time := false, active_field := .Day, date := d0 }

/-- `DateSelector::is_out_of_field`. -/
def DateSelector.is_out_of_field (s : DateSelector) : Bool :=
  match s.has_time with
  | true => false
  | false =>
    match s.active_field with
    | .Year | .Month | .Day => false
    | _ => true

/-- `DateSelector::left` (state effect; the `adjust` cursor call is
display-only and is accounted for in the `select` loop). -/
def DateSelector.left (s : DateSelector) : DateSelector :=
  let s' := { s with active_field := switch_prev s.active_field }
  if s'.is_out_of_field then { s' with active_field := .Day } else s'

/-- `DateSelector::right`. -/
def DateSelector.right (s : DateSelector) : DateSelector :=
  let s' := { s with active_field := switch_next s.active_field }
  if s'.is_out_of_field then { s' with active_field := .Year } else s'

/-- `DateSelector::up`. -/
def DateSelector.up (s : DateSelector) : DateSelector :=
  match s.active_field with
  | .Year => { s with date := checked_add_months 12 s.date }
  | .Month => { s with date := checked_add_months 1 s.date }
  | .Day => { s with date := checked_add_day s.date }
  | _ =>
    match s.has_time with
    | true =>
      match s.active_field with
      | .Hour => { s with date := addHour s.date }
      | .Minute => { s with date := addMinute s.date }
      | .Second => { s with date := addSecond s.date }
      | _ => s
    | false => { s with active_field := .Day }

/-- `DateSelector::down`. -/
def DateSelector.down (s : DateSelector) : DateSelector :=
  match s.active_field with
  | .Year => { s with date := checked_sub_months 12 s.date }
  | .Month => { s with date := checked_sub_months 1 s.date }
  | .Day => { s with date := checked_sub_day s.date }
  | _ =>
    match s.has_time with
    | true =>
      match s.active_field with
      | .Hour => { s with date := subHour s.date }
      | .Minute => { s with date := subMinute s.date }
      | .Second => { s with date := subSecond s.date }
      | _ => s
    | false => { s with active_field := .Day }

/-- The four navigation operations of `DateSelector`. -/
inductive SelOp where
  | left
  | right
  | up
  | down
deriving DecidableEq

/-- State effect of one navigation operation. -/
def applySelOp : SelOp → DateSelector → DateSelector
  | .left, s => s.left
  | .right, s => s.right
  | .up, s => s.up
  | .down, s => s.down

/-- Run a sequence of navigation operations. -/
def applySelSeq : List SelOp → DateSelector → DateSelector
  | [], s => s
  | op :: ops, s => applySelSeq ops (applySelOp op s)

/-- `DateSelector::select` loop.  Each iteration performs `clear_screen`,
the `write!` of the rendered date, the two cursor moves of `adjust` (4
unit calls), then reads a key (`?` — a failure propagates).  Arrow
left/right run the field switch (whose own `adjust` is 2 unit calls)
followed by another explicit `adjust` (2 more); Enter breaks, and the
final `clear_screen` after the loop is one more unit call. -/
def selectLoop (s : DateSelector) (keys : List (Except IOError Key))
    (us : List (Option IOError)) : Res DateSelector :=
  match runUnits 4 us with
  | Except.error e => Res.err e
  | Except.ok us1 =>
    match keys with
    | [] => Res.blocked
    | Except.error e :: _ => Res.err e
    | Except.ok k :: rest =>
      match k with
      | Key.ArrowLeft =>
        match runUnits 4 us1 with
        | Except.error e => Res.err e
        | Except.ok us2 => selectLoop s.left rest us2
      | Key.ArrowRight =>
        match runUnits 4 us1 with
        | Except.error e => Res.err e
        | Except.ok us2 => selectLoop s.right rest us2
      | Key.ArrowUp => selectLoop s.up rest us1
      | Key.ArrowDown => selectLoop s.down rest us1
      | Key.Enter =>
        match runUnits 1 us1 with
        | Except.error e => Res.err e
        | Except.ok _ => Res.ok s
      | _ => selectLoop s rest us1
termination_by keys.length
decreasing_by all_goals (simp_all; try omega)

/-- `DateSelector::select` against a terminal script. -/
def DateSelector.select (s : DateSelector) (t : TermState) : Res DateSelector :=
  selectLoop s t.keys t.unitResults

/-! ## `selector.rs`: yes/no prompt and list picker -/

/-- `ask_yes_no` loop: `read_key().unwrap()` — a failing read **panics**;
`y`/`Y` answers true and `n`/`N` false after one `write!` (1 unit call);
any other key redraws the corrective prompt (`clear_chars`,
`move_cursor_left`, `write!` — 3 unit calls) and loops. -/
def askYesNoLoop (keys : List (Except IOError Key))
    (us : List (Option IOError)) : Res Bool :=
  match keys with
  | [] => Res.blocked
  | Except.error _ :: _ => Res.panicked
  | Except.ok k :: rest =>
    match k with
    | Key.Char 'Y' | Key.Char 'y' =>
      match runUnits 1 us with
      | Except.error e => Res.err e
      | Except.ok _ => Res.ok true
    | Key.Char 'N' | Key.Char 'n' =>
      match runUnits 1 us with
      | Except.error e => Res.err e
      | Except.ok _ => Res.ok false
    | _ =>
      match runUnits 3 us with
      | Except.error e => Res.err e
      | Except.ok us' => askYesNoLoop rest us'
termination_by keys.length
decreasing_by all_goals (simp_all; try omega)

/-- `ask_yes_no`: one initial `write!` of the question, then the loop. -/
def ask_yes_no (_question_msg : String) (t : TermState) : Res Bool :=
  match runUnits 1 t.unitResults with
  | Except.error e => Res.err e
  | Except.ok us1 => askYesNoLoop t.keys us1

/-- `select_word_from_words` loop.  Each iteration: `clear_screen`,
`write_line(description)`, one `write!` per item (`2 + items.length` unit
calls), then `read_key().unwrap()` — a failing read **panics**.  Up/`k`
and down/`j` move the selection with wraparound; `q`/`Q`/Escape clears the
screen (1 unit call) and returns `io::Error::new(ErrorKind::Other,
"quit")`; Enter clears the screen (1 unit call) and returns `items[seq]`
(out of range panics). -/
def selectWordLoop (items : List String) (seq : Nat)
    (keys : List (Except IOError Key)) (us : List (Option IOError)) :
    Res String :=
  match runUnits (2 + items.length) us with
  | Except.error e => Res.err e
  | Except.ok us1 =>
    match keys with
    | [] => Res.blocked
    | Except.error _ :: _ => Res.panicked
    | Except.ok k :: rest =>
      match k with
      | Key.ArrowUp | Key.Char 'k' =>
        selectWordLoop items
          (if seq = 0 then items.length - 1 else seq - 1) rest us1
      | Key.ArrowDown | Key.Char 'j' =>
        selectWordLoop items
          (if seq = items.length - 1 then 0 else seq + 1) rest us1
      | Key.Char 'q' | Key.Char 'Q' | Key.Escape =>
        match runUnits 1 us1 with
        | Except.error e => Res.err e
        | Except.ok _ => Res.err { kind := ErrorKind.other, msg := "quit" }
      | Key.Enter =>
        match runUnits 1 us1 with
        | Except.error e => Res.err e
        | Except.ok _ =>
          match items.get? seq with
          | some w => Res.ok w
          | none => Res.panicked
      | _ => selectWordLoop items seq rest us1
termination_by keys.length
decreasing_by all_goals (simp_all; try omega)

/-- `select_word_from_words`: `clear_line` (1 unit call), then the marker
table is built with `for _ in 0..word_count - 1`, whose `word_count - 1`
**underflows — panics — when `items` is empty**; otherwise the loop runs
with the selection starting at 0. -/
def select_word_from_words (_description : String) (items : List String)
    (t : TermState) : Res String :=
  match runUnits 1 t.unitResults with
  | Except.error e => Res.err e
  | Except.ok us1 =>
    if items.length = 0 then Res.panicked
    else selectWordLoop items 0 t.keys us1

/-! ## Lemmas: UTF-8 byte arithmetic -/

theorem utf8Len_pos (c : Char) : 1 ≤ utf8Len c := by
  unfold utf8Len; split_ifs <;> omega

theorem byteLen_append (s t : List Char) :
    byteLen (s ++ t) = byteLen s + byteLen t := by
  induction s with
  | nil => simp [byteLen]
  | cons c cs ih => simp [byteLen, ih]; omega

theorem byteLen_eq_zero {s : List Char} : byteLen s = 0 ↔ s = [] := by
  cases s with
  | nil => simp [byteLen]
  | cons c cs =>
    simp [byteLen]
    intro h
    have := utf8Len_pos c
    omega

theorem isBoundary_le {s : List Char} {i : Nat}
    (h : isBoundary s i = true) : i ≤ byteLen s := by
  induction s generalizing i with
  | nil =>
    cases i with
    | zero => simp [byteLen]
    | succ j => simp [isBoundary] at h
  | cons c cs ih =>
    cases i with
    | zero => omega
    | succ j =>
      simp only [isBoundary] at h
      split at h
      · exact absurd h (by simp)
      · have := ih h
        simp only [byteLen]
        omega

theorem boundary_split {s : List Char} {i : Nat}
    (h : isBoundary s i = true) :
    ∃ pre post, takeBytes s i = some pre ∧ dropBytes s i = some post ∧
      pre ++ post = s ∧ byteLen pre = i := by
  induction s generalizing i with
  | nil =>
    cases i with
    | zero => exact ⟨[], [], rfl, rfl, rfl, rfl⟩
    | succ j => simp [isBoundary] at h
  | cons c cs ih =>
    cases i with
    | zero => exact ⟨[], c :: cs, rfl, rfl, rfl, rfl⟩
    | succ j =>
      simp only [isBoundary] at h
      split at h
      · exact absurd h (by simp)
      · rename_i hw
        obtain ⟨pre, post, h1, h2, h3, h4⟩ := ih h
        refine ⟨c :: pre, post, ?_, ?_, ?_, ?_⟩
        · simp only [takeBytes]
          rw [if_neg hw, h1]
          rfl
        · simp only [dropBytes]
          rw [if_neg hw, h2]
        · simp [h3]
        · simp only [byteLen, h4]
          omega

theorem takeBytes_byteLen {s pre : List Char} {i : Nat}
    (h : takeBytes s i = some pre) : byteLen pre = i := by
  induction s generalizing i pre with
  | nil =>
    cases i with
    | zero => simp only [takeBytes, Option.some.injEq] at h; subst h; rfl
    | succ j => simp [takeBytes] at h
  | cons c cs ih =>
    cases i with
    | zero => simp only [takeBytes, Option.some.injEq] at h; subst h; rfl
    | succ j =>
      simp only [takeBytes] at h
      split at h
      · exact absurd h (by simp)
      · rename_i hw
        rcases Option.map_eq_some'.mp h with ⟨pre', h1, h2⟩
        have := ih h1
        subst h2
        simp only [byteLen]
        omega

theorem insertAt_some_of_boundary {s : List Char} {i : Nat} (c : Char)
    (h : isBoundary s i = true) : ∃ t, insertAt s i c = some t := by
  induction s generalizing i with
  | nil =>
    cases i with
    | zero => exact ⟨[c], rfl⟩
    | succ j => simp [isBoundary] at h
  | cons d ds ih =>
    cases i with
    | zero => exact ⟨c :: d :: ds, rfl⟩
    | succ j =>
      simp only [isBoundary] at h
      split at h
      · exact absurd h (by simp)
      · rename_i hw
        obtain ⟨t, ht⟩ := ih h
        refine ⟨d :: t, ?_⟩
        simp only [insertAt]
        rw [if_neg hw, ht]
        rfl

theorem insertAt_byteLen {s t : List Char} {i : Nat} {c : Char}
    (h : insertAt s i c = some t) : byteLen t = byteLen s + utf8Len c := by
  induction s generalizing i t with
  | nil =>
    cases i with
    | zero => simp [insertAt] at h; simp [← h, byteLen]
    | succ j => simp [insertAt] at h
  | cons d ds ih =>
    cases i with
    | zero =>
      simp only [insertAt] at h
      cases h
      simp [byteLen]; omega
    | succ j =>
      simp only [insertAt] at h
      split at h
      · exact absurd h (by simp)
      · rcases Option.map_eq_some'.mp h with ⟨t', h1, h2⟩
        have := ih h1
        subst h2
        simp only [byteLen]
        omega

theorem removeAt_insertAt {s t : List Char} {i : Nat} {c : Char}
    (h : insertAt s i c = some t) : removeAt t i = some s := by
  induction s generalizing i t with
  | nil =>
    cases i with
    | zero => simp only [insertAt] at h; cases h; rfl
    | succ j => simp [insertAt] at h
  | cons d ds ih =>
    cases i with
    | zero => simp only [insertAt] at h; cases h; rfl
    | succ j =>
      simp only [insertAt] at h
      split at h
      · exact absurd h (by simp)
      · rename_i hw
        rcases Option.map_eq_some'.mp h with ⟨t', h1, h2⟩
        subst h2
        simp only [removeAt]
        rw [if_neg hw, ih h1]
        rfl

theorem isBoundary_cons_len (c : Char) (s : List Char) :
    isBoundary (c :: s) (utf8Len c) = true := by
  have hc := utf8Len_pos c
  cases hu : utf8Len c with
  | zero => omega
  | succ u => simp [isBoundary, hu]

theorem insertAt_boundary_after {s t : List Char} {i : Nat} {c : Char}
    (h : insertAt s i c = some t) :
    isBoundary t (i + utf8Len c) = true := by
  induction s generalizing i t with
  | nil =>
    cases i with
    | zero =>
      simp only [insertAt] at h
      cases h
      simpa using isBoundary_cons_len c []
    | succ j => simp [insertAt] at h
  | cons d ds ih =>
    cases i with
    | zero =>
      simp only [insertAt] at h
      cases h
      simpa using isBoundary_cons_len c (d :: ds)
    | succ j =>
      simp only [insertAt] at h
      split at h
      · exact absurd h (by simp)
      · rename_i hw
        rcases Option.map_eq_some'.mp h with ⟨t', h1, h2⟩
        subst h2
        have hrec := ih h1
        have hd := utf8Len_pos d
        have harith : j + 1 + utf8Len c = (j + utf8Len c) + 1 := by omega
        rw [harith]
        simp only [isBoundary]
        rw [if_neg (by omega)]
        have : j + utf8Len c + 1 - utf8Len d = j + 1 - utf8Len d + utf8Len c := by
          omega
        rw [this]
        exact hrec

theorem removeAt_bounds {s t : List Char} {j : Nat}
    (h : removeAt s j = some t) : j ≤ byteLen t ∧ byteLen t < byteLen s := by
  induction s generalizing j t with
  | nil => simp [removeAt] at h
  | cons d ds ih =>
    cases j with
    | zero =>
      simp only [removeAt] at h
      cases h
      have := utf8Len_pos d
      simp only [byteLen]
      omega
    | succ j' =>
      simp only [removeAt] at h
      split at h
      · exact absurd h (by simp)
      · rename_i hw
        rcases Option.map_eq_some'.mp h with ⟨t', h1, h2⟩
        subst h2
        have := ih h1
        simp only [byteLen]
        omega

/-! ## Lemmas: space offsets -/

theorem spaceIndices_lb {s : List Char} {off j : Nat}
    (h : j ∈ spaceIndices s off) : off ≤ j := by
  induction s generalizing off with
  | nil => simp [spaceIndices] at h
  | cons c cs ih =>
    simp only [spaceIndices] at h
    split at h
    · rcases List.mem_cons.mp h with h1 | h1
      · omega
      · have := ih h1
        omega
    · have := ih h
      omega

theorem spaceIndices_ub {s : List Char} {off j : Nat}
    (h : j ∈ spaceIndices s off) : j < off + byteLen s := by
  induction s generalizing off with
  | nil => simp [spaceIndices] at h
  | cons c cs ih =>
    have hc := utf8Len_pos c
    simp only [spaceIndices] at h
    simp only [byteLen]
    split at h
    · rcases List.mem_cons.mp h with h1 | h1
      · omega
      · have := ih h1
        omega
    · have := ih h
      omega

theorem spaceIndices_pairwise (s : List Char) (off : Nat) :
    (spaceIndices s off).Pairwise (· < ·) := by
  induction s generalizing off with
  | nil => simp [spaceIndices]
  | cons c cs ih =>
    have hc := utf8Len_pos c
    simp only [spaceIndices]
    split
    · refine List.Pairwise.cons ?_ (ih _)
      intro j hj
      have := spaceIndices_lb hj
      omega
    · exact ih _

theorem spaceIndices_space {s : List Char} {off j : Nat}
    (h : j ∈ spaceIndices s off) :
    ∃ pre, takeBytes s (j - off) = some pre := by
  induction s generalizing off j with
  | nil => simp [spaceIndices] at h
  | cons c cs ih =>
    have hc := utf8Len_pos c
    simp only [spaceIndices] at h
    have hstep : ∀ j', j' ∈ spaceIndices cs (off + utf8Len c) →
        ∃ pre, takeBytes (c :: cs) (j' - off) = some pre := by
      intro j' hj'
      have hlb := spaceIndices_lb hj'
      obtain ⟨pre, hpre⟩ := ih hj'
      refine ⟨c :: pre, ?_⟩
      cases hd : j' - off with
      | zero => omega
      | succ k =>
        simp only [takeBytes]
        rw [if_neg (by omega)]
        have harg : k + 1 - utf8Len c = j' - (off + utf8Len c) := by omega
        rw [harg, hpre]
        rfl
    split at h
    · rcases List.mem_cons.mp h with h1 | h1
      · subst h1
        exact ⟨[], by simp [Nat.sub_self, takeBytes]⟩
      · exact hstep j h1
    · exact hstep j h

/-! ## Lemmas: first/last matches in sorted offset lists -/

theorem find?_sorted_min {l : List Nat} {p : Nat → Bool} {j : Nat}
    (hs : l.Pairwise (· < ·)) (h : l.find? p = some j) :
    j ∈ l ∧ p j = true ∧ ∀ k ∈ l, p k = true → j ≤ k := by
  induction l with
  | nil => simp at h
  | cons a l ih =>
    rcases List.pairwise_cons.mp hs with ⟨ha, hs'⟩
    by_cases hpa : p a = true
    · rw [List.find?_cons_of_pos _ hpa] at h
      cases h
      refine ⟨List.mem_cons_self _ _, hpa, ?_⟩
      intro k hk _
      rcases List.mem_cons.mp hk with rfl | hk'
      · exact le_refl _
      · exact le_of_lt (ha k hk')
    · rw [List.find?_cons_of_neg _ (by simpa using hpa)] at h
      obtain ⟨h1, h2, h3⟩ := ih hs' h
      refine ⟨List.mem_cons_of_mem _ h1, h2, ?_⟩
      intro k hk hpk
      rcases List.mem_cons.mp hk with rfl | hk'
      · exact absurd hpk hpa
      · exact h3 k hk' hpk

theorem getLast?_sorted_max {l : List Nat} {x : Nat}
    (hs : l.Pairwise (· < ·)) (h : l.getLast? = some x) :
    x ∈ l ∧ ∀ k ∈ l, k ≤ x := by
  induction l with
  | nil => simp at h
  | cons a l ih =>
    rcases List.pairwise_cons.mp hs with ⟨ha, hs'⟩
    cases l with
    | nil =>
      simp only [List.getLast?_singleton, Option.some.injEq] at h
      subst h
      simp
    | cons b l' =>
      rw [List.getLast?_cons_cons] at h
      obtain ⟨h1, h2⟩ := ih hs' h
      refine ⟨List.mem_cons_of_mem _ h1, ?_⟩
      intro k hk
      rcases List.mem_cons.mp hk with rfl | hk'
      · exact le_of_lt (ha x h1)
      · exact h2 k hk'

/-! ## Lemmas: the cursor invariant -/

theorem applyOp_inv {op : EditOp} {b b' : Buffer} (hb : BufInv b)
    (h : applyOp op b = some b') : BufInv b' := by
  cases op with
  | insertChar c =>
    simp only [applyOp, Buffer.char] at h
    split at h
    · exact absurd h (by simp)
    · rcases Option.map_eq_some'.mp h with ⟨t, h1, h2⟩
      subst h2
      have hlen := insertAt_byteLen h1
      have := utf8Len_pos c
      simp only [BufInv] at hb ⊢
      simp only [hlen]
      omega
  | backspace =>
    simp only [applyOp, Buffer.backspace] at h
    split at h
    · rcases Option.map_eq_some'.mp h with ⟨t, h1, h2⟩
      subst h2
      have := (removeAt_bounds h1).1
      simpa [BufInv] using this
    · cases h
      exact hb
  | delete =>
    simp only [applyOp, Buffer.del] at h
    split at h
    · rcases Option.map_eq_some'.mp h with ⟨t, h1, h2⟩
      subst h2
      rename_i hg
      have hbd := removeAt_bounds h1
      simp only [BufInv] at hb ⊢
      omega
    · cases h
      exact hb
  | moveHome =>
    simp only [applyOp, Buffer.home] at h
    cases h
    simp [BufInv]
  | moveEnd =>
    simp only [applyOp, Buffer.toEnd] at h
    split at h
    · exact absurd h (by simp)
    · cases h
      simp [BufInv]
  | moveLeft =>
    simp only [applyOp, Buffer.left] at h
    cases h
    split
    · simp only [BufInv] at hb ⊢
      omega
    · exact hb
  | moveRight =>
    simp only [applyOp, Buffer.right] at h
    cases h
    split
    · rename_i hg
      simp only [BufInv] at hb ⊢
      omega
    · exact hb
  | wordForward =>
    simp only [applyOp, Buffer.word_forward] at h
    cases h
    split
    · rename_i i hfind
      have hmem := List.mem_of_find?_eq_some hfind
      rcases List.mem_append.mp hmem with hm | hm
      · have := spaceIndices_ub hm
        simp only [BufInv]
        omega
      · simp only [List.mem_singleton] at hm
        subst hm
        simp [BufInv]
    · exact hb
  | wordBackward =>
    simp only [applyOp, Buffer.word_backword] at h
    cases h
    split
    · rename_i i hfind
      have := List.find?_some hfind
      simp only [decide_eq_true_eq] at this
      simp only [BufInv] at hb ⊢
      omega
    · exact hb
  | wordDeleteForward =>
    simp only [applyOp, Buffer.word_delete] at h
    split at h
    · rename_i pre post hpre hpost
      cases h
      have := takeBytes_byteLen hpre
      simp only [BufInv, byteLen_append]
      omega
    · exact absurd h (by simp)
  | wordDeleteBackward =>
    simp only [applyOp, Buffer.word_backspace] at h
    split at h
    · split at h
      · exact absurd h (by simp)
      · split at h
        · rename_i target htarget pre post hpre hpost
          cases h
          have := takeBytes_byteLen hpre
          simp only [BufInv, byteLen_append]
          omega
        · exact absurd h (by simp)
    · cases h
      exact hb
  | acceptLine =>
    simp only [applyOp, Buffer.enter] at h
    split at h
    · rcases Option.map_eq_some'.mp h with ⟨t, h1, h2⟩
      subst h2
      have hlen := insertAt_byteLen h1
      have := utf8Len_pos '\n'
      simp only [BufInv] at hb ⊢
      simp only [hlen]
      omega
    · cases h
      exact hb

theorem applySeq_inv {ops : List EditOp} {b b' : Buffer} (hb : BufInv b)
    (h : applySeq ops b = some b') : BufInv b' := by
  induction ops generalizing b with
  | nil =>
    simp only [applySeq] at h
    cases h
    exact hb
  | cons op ops ih =>
    simp only [applySeq, Option.bind_eq_some] at h
    rcases h with ⟨b1, h1, h2⟩
    exact ih (applyOp_inv hb h1) h2

/-! ## Claims about the line-edit buffer -/

/-- C1: every edit operation (insert, backspace, delete, home, end, left,
right, the four word operations, accept-line) preserves the invariant
`0 ≤ index ≤ len(text)` whenever it completes, hence the invariant holds
before and after every operation of every sequence started from a
constructed buffer (`Buffer::new` / `Buffer::from` both satisfy it). -/
theorem c1_cursor_invariant_preserved :
    (∀ (op : EditOp) (b b' : Buffer), BufInv b → applyOp op b = some b' →
      BufInv b') ∧
    (∀ (ops : List EditOp) (b b' : Buffer), BufInv b →
      applySeq ops b = some b' → BufInv b') ∧
    BufInv Buffer.new ∧ (∀ s, BufInv (Buffer.fromText s)) := by
  refine ⟨fun op b b' hb h => applyOp_inv hb h,
    fun ops b b' hb h => applySeq_inv hb h, by simp [BufInv, Buffer.new, byteLen],
    fun s => by simp [BufInv, Buffer.fromText]⟩

/-- Witness for C1: the invariant transported across a concrete insert. -/
theorem c1_cursor_invariant_preserved_witness :
    BufInv { debug := false, double_line_response := false,
             terminate_on_up_down := false, index := 1, pfix := [],
             text := ['a', 'b'] } :=
  c1_cursor_invariant_preserved.1 (EditOp.insertChar 'a')
    (Buffer.fromText ['b']) _ (by decide) (by decide)

/-- C5: `word_forward` never changes the text, and moves the cursor to the
smallest space offset strictly greater than `index` — or to `len(text)`
when no such space exists (in particular it stays at `len(text)` when
`index = len(text)`). -/
theorem c5_word_forward_next_space (b : Buffer) (h : BufInv b) :
    b.word_forward.text = b.text ∧
    ((∃ j ∈ spaceIndices b.text 0, b.index < j ∧ b.word_forward.index = j ∧
        ∀ k ∈ spaceIndices b.text 0, b.index < k → j ≤ k) ∨
      ((∀ k ∈ spaceIndices b.text 0, ¬ b.index < k) ∧
        b.word_forward.index = byteLen b.text)) := by
  have hpw : ((spaceIndices b.text 0) ++ [byteLen b.text]).Pairwise (· < ·) := by
    refine List.pairwise_append.mpr
      ⟨spaceIndices_pairwise _ _, List.pairwise_singleton _ _, ?_⟩
    intro a ha x hx
    simp only [List.mem_singleton] at hx
    subst hx
    have := spaceIndices_ub ha
    omega
  simp only [Buffer.word_forward]
  cases hf : ((spaceIndices b.text 0) ++ [byteLen b.text]).find?
      (fun i => decide (b.index < i)) with
  | some j =>
    obtain ⟨hmem, hp, hmin⟩ := find?_sorted_min hpw hf
    simp only [decide_eq_true_eq] at hp
    rcases List.mem_append.mp hmem with hm | hm
    · refine ⟨rfl, Or.inl ⟨j, hm, hp, rfl, ?_⟩⟩
      intro k hk hik
      exact hmin k (List.mem_append_left _ hk) (by simpa using hik)
    · simp only [List.mem_singleton] at hm
      subst hm
      by_cases hky : ∃ k ∈ spaceIndices b.text 0, b.index < k
      · obtain ⟨k, hk1, hk2⟩ := hky
        have hle := hmin k (List.mem_append_left _ hk1) (by simpa using hk2)
        have := spaceIndices_ub hk1
        omega
      · push_neg at hky
        exact ⟨rfl, Or.inr ⟨fun k hk => by have := hky k hk; omega, rfl⟩⟩
  | none =>
    have hall := List.find?_eq_none.mp hf
    have hlen : ¬ b.index < byteLen b.text := by
      have := hall (byteLen b.text) (List.mem_append_right _ (by simp))
      simpa using this
    refine ⟨rfl, Or.inr ⟨?_, ?_⟩⟩
    · intro k hk
      have := hall k (List.mem_append_left _ hk)
      simpa using this
    · show b.index = byteLen b.text
      simp only [BufInv] at h
      omega

/-- Witness for C5 at the repository's own test vector: text
`"okachimachi koshigaya inogashira suidobashi ochanomidzu"`, index 19. -/
theorem c5_word_forward_next_space_witness :
    BufInv { debug := false, double_line_response := false,
             terminate_on_up_down := false, index := 19, pfix := [],
             text := "okachimachi koshigaya inogashira suidobashi ochanomidzu".data } ∧
    ({ debug := false, double_line_response := false,
       terminate_on_up_down := false, index := 19, pfix := [],
       text := "okachimachi koshigaya inogashira suidobashi ochanomidzu".data }
        : Buffer).word_forward.text =
      "okachimachi koshigaya inogashira suidobashi ochanomidzu".data :=
  ⟨by decide, (c5_word_forward_next_space _ (by decide)).1⟩

/-- C6: on a valid cursor position (a character boundary), word-delete-
backward computes `p` = the largest space offset strictly below `index`
(or 0 if none), replaces `text` by `text[0..p] ++ text[index..len]` —
i.e. removes exactly the span `[p, index)` — and sets `index := p`; on an
empty text it is a no-op. -/
theorem c6_word_backspace_removes_span (b : Buffer)
    (hbd : isBoundary b.text b.index = true) :
    (b.text = [] → b.word_backspace = some b) ∧
    (b.text ≠ [] → ∃ p pre post,
      takeBytes b.text p = some pre ∧ dropBytes b.text b.index = some post ∧
      b.word_backspace = some { b with text := pre ++ post, index := p } ∧
      ((p ∈ spaceIndices b.text 0 ∧ p < b.index ∧
          ∀ k ∈ spaceIndices b.text 0, k < b.index → k ≤ p) ∨
        (p = 0 ∧ ∀ k ∈ spaceIndices b.text 0, ¬ k < b.index))) := by
  constructor
  · intro ht
    simp [Buffer.word_backspace, ht, byteLen]
  · intro ht
    have hnz : byteLen b.text ≠ 0 := fun h0 => ht (byteLen_eq_zero.mp h0)
    obtain ⟨pre0, post, -, hdrop, -, -⟩ := boundary_split hbd
    simp only [Buffer.word_backspace]
    rw [if_pos hnz]
    cases hF : (spaceIndices b.text 0).filter (fun n => decide (n < b.index)) with
    | nil =>
      refine ⟨0, [], post, by cases b.text <;> rfl, hdrop, ?_, Or.inr ⟨rfl, ?_⟩⟩
      · have htake : takeBytes b.text 0 = some [] := by cases b.text <;> rfl
        simp only [List.reverse_cons, List.reverse_nil, List.nil_append,
          List.head?_cons, htake, hdrop]
      · intro k hk hlt
        have : k ∈ (spaceIndices b.text 0).filter
            (fun n => decide (n < b.index)) := by
          rw [List.mem_filter]
          exact ⟨hk, by simpa using hlt⟩
        rw [hF] at this
        simp at this
    | cons f F' =>
      have hpwF : (f :: F').Pairwise (· < ·) := by
        rw [← hF]
        exact List.Pairwise.filter _ (spaceIndices_pairwise b.text 0)
      cases hL : (f :: F').getLast? with
      | none => simp [List.getLast?_eq_none_iff] at hL
      | some x =>
        obtain ⟨hxmem, hxmax⟩ := getLast?_sorted_max hpwF hL
        have hxF : x ∈ (spaceIndices b.text 0).filter
            (fun n => decide (n < b.index)) := by rw [hF]; exact hxmem
        rw [List.mem_filter] at hxF
        obtain ⟨hxS, hxlt⟩ := hxF
        simp only [decide_eq_true_eq] at hxlt
        obtain ⟨pre, hpre⟩ := spaceIndices_space hxS
        rw [Nat.sub_zero] at hpre
        refine ⟨x, pre, post, hpre, hdrop, ?_, Or.inl ⟨hxS, hxlt, ?_⟩⟩
        · rw [show ((0 :: f :: F').reverse).head? = (0 :: f :: F').getLast?
              from List.head?_reverse _]
          rw [List.getLast?_cons_cons, hL]
          simp only [hpre, hdrop]
        · intro k hk hlt
          have : k ∈ (spaceIndices b.text 0).filter
              (fun n => decide (n < b.index)) := by
            rw [List.mem_filter]
            exact ⟨hk, by simpa using hlt⟩
          rw [hF] at this
          exact hxmax k this

/-- Witness for C6: the empty-text no-op clause at the concrete empty
buffer. -/
theorem c6_word_backspace_removes_span_witness :
    isBoundary ([] : List Char) 0 = true ∧
    Buffer.new.word_backspace = some Buffer.new :=
  ⟨by decide, (c6_word_backspace_removes_span Buffer.new (by decide)).1 rfl⟩

/-- C7: on a valid cursor position (a character boundary — every position
`0 ≤ i ≤ len` over scalar character positions), inserting a character and
then immediately backspacing restores the original `(text, index)` pair
exactly. -/
theorem c7_insert_backspace_roundtrip (b : Buffer) (c : Char)
    (h : isBoundary b.text b.index = true) :
    ∃ b1, b.char c = some b1 ∧ b1.backspace = some b := by
  obtain ⟨t, ht⟩ := insertAt_some_of_boundary c h
  have hle := isBoundary_le h
  refine ⟨{ b with text := t, index := b.index + 1 }, ?_, ?_⟩
  · simp only [Buffer.char]
    rw [if_neg (by omega), ht]
    rfl
  · simp only [Buffer.backspace]
    rw [if_pos (by omega)]
    have : b.index + 1 - 1 = b.index := by omega
    rw [this, removeAt_insertAt ht]
    rfl

/-- Witness for C7: inserting `'x'` into `"ab"` at index 1 and backspacing
restores the buffer. -/
theorem c7_insert_backspace_roundtrip_witness :
    isBoundary ['a', 'b'] 1 = true ∧
    ∃ b1,
      ({ debug := false, double_line_response := false,
         terminate_on_up_down := false, index := 1, pfix := [],
         text := ['a', 'b'] } : Buffer).char 'x' = some b1 ∧
      b1.backspace = some
        { debug := false, double_line_response := false,
          terminate_on_up_down := false, index := 1, pfix := [],
          text := ['a', 'b'] } :=
  ⟨by decide, c7_insert_backspace_roundtrip _ 'x' (by decide)⟩

/-- C9 counterexample: inserting the two-byte character `'é'` into an
empty buffer advances `index` by one **byte**, leaving the cursor inside
the encoding of `'é'` (not on a character boundary), and the next insert
at that cursor panics — multi-byte input is *not* handled safely, contrary
to the claim. -/
theorem c9_counterexample_multibyte_insert_breaks_boundary :
    Buffer.char Buffer.new 'é' =
      some { debug := false, double_line_response := false,
             terminate_on_up_down := false, index := 1, pfix := [],
             text := ['é'] } ∧
    isBoundary ['é'] 1 = false ∧
    Buffer.char { debug := false, double_line_response := false,
                  terminate_on_up_down := false, index := 1, pfix := [],
                  text := ['é'] } 'x' = none := by
  refine ⟨by decide, by decide, by decide⟩

/-- C9 (amended): `insertChar` advances the cursor by exactly one **byte**;
only for single-byte (ASCII) characters is this one scalar character
position, and then the cursor stays on a character boundary.  For a
multi-byte character the cursor lands inside the inserted character's
encoding and subsequent operations at that index panic, so the guarded,
error-free behaviour *is* restricted to single-byte input. -/
theorem c9_insert_singlebyte_keeps_boundary (b : Buffer) (c : Char)
    (h1 : isBoundary b.text b.index = true) (h2 : utf8Len c = 1) :
    ∃ t, b.char c = some { b with text := t, index := b.index + 1 } ∧
      isBoundary t (b.index + 1) = true := by
  obtain ⟨t, ht⟩ := insertAt_some_of_boundary c h1
  have hle := isBoundary_le h1
  refine ⟨t, ?_, ?_⟩
  · simp only [Buffer.char]
    rw [if_neg (by omega), ht]
    rfl
  · have := insertAt_boundary_after ht
    rwa [h2] at this

/-- Witness for C9 (amended): inserting ASCII `'g'` at the start of the
empty buffer. -/
theorem c9_insert_singlebyte_keeps_boundary_witness :
    isBoundary ([] : List Char) 0 = true ∧ utf8Len 'g' = 1 ∧
    ∃ t, Buffer.new.char 'g' =
        some { Buffer.new with text := t, index := Buffer.new.index + 1 } ∧
      isBoundary t (Buffer.new.index + 1) = true :=
  ⟨by decide, by decide,
    c9_insert_singlebyte_keeps_boundary Buffer.new 'g' (by decide) (by decide)⟩

/-! ## Lemmas: calendar arithmetic -/

theorem daysInMonth_ge (y : Int) (m : Nat) : 28 ≤ daysInMonth y m := by
  unfold daysInMonth; split_ifs <;> omega

theorem daysInMonth_twelve (y : Int) : daysInMonth y 12 = 31 := by
  norm_num [daysInMonth]

theorem monthsShift_cancel (δ : Int) (y : Int) (m d : Nat)
    (h1 : 1 ≤ m) (h2 : m ≤ 12) (h3 : d ≤ 28) :
    monthsShift (-δ) (monthsShift δ ⟨y, m, d⟩) = (⟨y, m, d⟩ : CivilDate) := by
  simp only [monthsShift, CivilDate.mk.injEq]
  refine ⟨by omega, by omega, ?_⟩
  rw [Nat.min_eq_left (h3.trans (daysInMonth_ge _ _)),
    Nat.min_eq_left (h3.trans (daysInMonth_ge _ _))]

theorem predDate_succDate (y : Int) (m d : Nat) (h1 : 1 ≤ m) (h2 : m ≤ 12)
    (h3 : 1 ≤ d) (h4 : d ≤ daysInMonth y m) :
    predDate (succDate ⟨y, m, d⟩) = (⟨y, m, d⟩ : CivilDate) := by
  simp only [succDate]
  split_ifs with hlt hm
  · simp only [predDate]
    split_ifs <;> simp_all [CivilDate.mk.injEq] <;> omega
  · simp only [predDate]
    split_ifs <;> simp_all [CivilDate.mk.injEq] <;> omega
  · have hm12 : m = 12 := by omega
    subst hm12
    have h31 := daysInMonth_twelve y
    simp only [predDate]
    split_ifs <;> simp_all [CivilDate.mk.injEq] <;> omega

theorem succDate_predDate (y : Int) (m d : Nat) (h1 : 1 ≤ m) (h2 : m ≤ 12)
    (h3 : 1 ≤ d) (h4 : d ≤ daysInMonth y m) :
    succDate (predDate ⟨y, m, d⟩) = (⟨y, m, d⟩ : CivilDate) := by
  have h31 := daysInMonth_twelve (y - 1)
  simp only [predDate]
  split_ifs with hlt hm
  · simp only [succDate]
    split_ifs <;> simp_all [CivilDate.mk.injEq] <;> omega
  · simp only [succDate]
    split_ifs <;> simp_all [CivilDate.mk.injEq] <;> omega
  · simp only [succDate]
    split_ifs <;> simp_all [CivilDate.mk.injEq] <;> omega

theorem subHour_addHour (t : DateTime) (h : ValidDT t) :
    subHour (addHour t) = t := by
  rcases t with ⟨⟨y, m, d⟩, hh, mm, ss⟩
  simp only [ValidDT] at h
  obtain ⟨h1, h2, h3, h4, h5, h6, h7⟩ := h
  simp only [addHour]
  split_ifs with h23
  · simp only [subHour]
    split_ifs with h0 <;> simp_all [DateTime.mk.injEq] <;> omega
  · simp only [subHour]
    split_ifs with h0
    · omega
    · simp only [DateTime.mk.injEq]
      exact ⟨predDate_succDate y m d h1 h2 h3 h4, by omega, trivial, trivial⟩

theorem addHour_subHour (t : DateTime) (h : ValidDT t) :
    addHour (subHour t) = t := by
  rcases t with ⟨⟨y, m, d⟩, hh, mm, ss⟩
  simp only [ValidDT] at h
  obtain ⟨h1, h2, h3, h4, h5, h6, h7⟩ := h
  simp only [subHour]
  split_ifs with h0
  · simp only [addHour]
    split_ifs with h23 <;> simp_all [DateTime.mk.injEq] <;> omega
  · simp only [addHour]
    split_ifs with h23
    · omega
    · simp only [DateTime.mk.injEq]
      exact ⟨succDate_predDate y m d h1 h2 h3 h4, by omega, trivial, trivial⟩

theorem subHour_minute_comm (t : DateTime) (v : Nat) :
    subHour { t with minute := v } = { subHour t with minute := v } := by
  rcases t with ⟨dd, hh, mm, ss⟩
  simp only [subHour]
  split_ifs <;> rfl

theorem addHour_minute_comm (t : DateTime) (v : Nat) :
    addHour { t with minute := v } = { addHour t with minute := v } := by
  rcases t with ⟨dd, hh, mm, ss⟩
  simp only [addHour]
  split_ifs <;> rfl

theorem subMinute_addMinute (t : DateTime) (h : ValidDT t) :
    subMinute (addMinute t) = t := by
  have h6 : t.minute ≤ 59 := h.2.2.2.2.2.1
  simp only [addMinute]
  split_ifs with h59
  · simp only [subMinute]
    split_ifs with h0
    · rcases t with ⟨dd, hh, mm, ss⟩
      simp [DateTime.mk.injEq]
    · omega
  · have hm59 : t.minute = 59 := by omega
    simp only [subMinute]
    split_ifs with h0
    · omega
    · rw [subHour_minute_comm, subHour_addHour t h]
      rcases t with ⟨dd, hh, mm, ss⟩
      simp only at hm59
      simp [DateTime.mk.injEq, hm59]

theorem addMinute_subMinute (t : DateTime) (h : ValidDT t) :
    addMinute (subMinute t) = t := by
  have h6 : t.minute ≤ 59 := h.2.2.2.2.2.1
  simp only [subMinute]
  split_ifs with h0
  · simp only [addMinute]
    split_ifs with h59
    · rcases t with ⟨dd, hh, mm, ss⟩
      simp only at h0 h59 ⊢
      simp [DateTime.mk.injEq]
      omega
    · omega
  · have hm0 : t.minute = 0 := by omega
    simp only [addMinute]
    split_ifs with h59
    · omega
    · rw [addHour_minute_comm, addHour_subHour t h]
      rcases t with ⟨dd, hh, mm, ss⟩
      simp only at hm0
      simp [DateTime.mk.injEq, hm0]

theorem subMinute_second_comm (t : DateTime) (v : Nat) :
    subMinute { t with second := v } = { subMinute t with second := v } := by
  rcases t with ⟨dd, hh, mm, ss⟩
  simp only [subMinute, subHour]
  split_ifs <;> rfl

theorem addMinute_second_comm (t : DateTime) (v : Nat) :
    addMinute { t with second := v } = { addMinute t with second := v } := by
  rcases t with ⟨dd, hh, mm, ss⟩
  simp only [addMinute, addHour]
  split_ifs <;> rfl

theorem subSecond_addSecond (t : DateTime) (h : ValidDT t) :
    subSecond (addSecond t) = t := by
  have h7 : t.second ≤ 59 := h.2.2.2.2.2.2
  simp only [addSecond]
  split_ifs with h59
  · simp only [subSecond]
    split_ifs with h0
    · rcases t with ⟨dd, hh, mm, ss⟩
      simp [DateTime.mk.injEq]
    · omega
  · have hs59 : t.second = 59 := by omega
    simp only [subSecond]
    split_ifs with h0
    · omega
    · rw [subMinute_second_comm, subMinute_addMinute t h]
      rcases t with ⟨dd, hh, mm, ss⟩
      simp only at hs59
      simp [DateTime.mk.injEq, hs59]

theorem addSecond_subSecond (t : DateTime) (h : ValidDT t) :
    addSecond (subSecond t) = t := by
  have h7 : t.second ≤ 59 := h.2.2.2.2.2.2
  simp only [subSecond]
  split_ifs with h0
  · simp only [addSecond]
    split_ifs with h59
    · rcases t with ⟨dd, hh, mm, ss⟩
      simp only at h0 h59 ⊢
      simp [DateTime.mk.injEq]
      omega
    · omega
  · have hs0 : t.second = 0 := by omega
    simp only [addSecond]
    split_ifs with h59
    · omega
    · rw [addMinute_second_comm, addMinute_subMinute t h]
      rcases t with ⟨dd, hh, mm, ss⟩
      simp only at hs0
      simp [DateTime.mk.injEq, hs0]

/-! ## Claims about the date selector -/

/-- C2 counterexample: with the Month field active on 2023-01-31
(date-only mode), `up()` clamps to 2023-02-28 and `down()` then lands on
2023-01-28 — `up` followed by `down` changes `date`, so the net-zero claim
fails for Year/Month at month-end dates. -/
theorem c2_counterexample_month_end_clamp :
    (DateSelector.down (DateSelector.up
        ⟨"due date", false, DateTimeField.Month, ⟨⟨2023, 1, 31⟩, 0, 0, 0⟩⟩)).date =
      (⟨⟨2023, 1, 28⟩, 0, 0, 0⟩ : DateTime) ∧
    (DateSelector.down (DateSelector.up
        ⟨"due date", false, DateTimeField.Month, ⟨⟨2023, 1, 31⟩, 0, 0, 0⟩⟩)).date ≠
      (⟨"due date", false, DateTimeField.Month,
        ⟨⟨2023, 1, 31⟩, 0, 0, 0⟩⟩ : DateSelector).date := by
  refine ⟨by decide, by decide⟩

/-- C2 (amended): `up()` then `down()` — and `down()` then `up()` — leave
`date` unchanged for every field visible in the current mode, *provided*
the day-of-month is at most 28 when the active field is Year or Month
(otherwise chrono's month-end clamp loses the day, as the counterexample
shows); for Day/Hour/Minute/Second no day restriction is needed. -/
theorem c2_up_down_net_zero_amended (s : DateSelector)
    (hv : ValidDT s.date)
    (hvis : s.has_time = false →
      s.active_field = DateTimeField.Year ∨
        s.active_field = DateTimeField.Month ∨
        s.active_field = DateTimeField.Day)
    (hclamp : (s.active_field = DateTimeField.Year ∨
        s.active_field = DateTimeField.Month) → s.date.date.day ≤ 28) :
    (s.up.down).date = s.date ∧ (s.down.up).date = s.date := by
  rcases s with ⟨nm, ht, f, dt⟩
  rcases dt with ⟨⟨y, m, d⟩, hh, mm, ss⟩
  simp only [ValidDT] at hv
  obtain ⟨h1, h2, h3, h4, h5, h6, h7⟩ := hv
  cases f with
  | Year =>
    have hd : d ≤ 28 := hclamp (Or.inl rfl)
    constructor
    · simp only [DateSelector.up, DateSelector.down, checked_add_months,
        checked_sub_months, DateTime.mk.injEq]
      exact ⟨monthsShift_cancel _ y m d h1 h2 hd, trivial, trivial, trivial⟩
    · simp only [DateSelector.up, DateSelector.down, checked_add_months,
        checked_sub_months, DateTime.mk.injEq]
      have := monthsShift_cancel (-((12 : Nat) : Int)) y m d h1 h2 hd
      rw [neg_neg] at this
      exact ⟨this, trivial, trivial, trivial⟩
  | Month =>
    have hd : d ≤ 28 := hclamp (Or.inr rfl)
    constructor
    · simp only [DateSelector.up, DateSelector.down, checked_add_months,
        checked_sub_months, DateTime.mk.injEq]
      exact ⟨monthsShift_cancel _ y m d h1 h2 hd, trivial, trivial, trivial⟩
    · simp only [DateSelector.up, DateSelector.down, checked_add_months,
        checked_sub_months, DateTime.mk.injEq]
      have := monthsShift_cancel (-((1 : Nat) : Int)) y m d h1 h2 hd
      rw [neg_neg] at this
      exact ⟨this, trivial, trivial, trivial⟩
  | Day =>
    constructor
    · simp only [DateSelector.up, DateSelector.down, checked_add_day,
        checked_sub_day, DateTime.mk.injEq]
      exact ⟨predDate_succDate y m d h1 h2 h3 h4, trivial, trivial, trivial⟩
    · simp only [DateSelector.up, DateSelector.down, checked_add_day,
        checked_sub_day, DateTime.mk.injEq]
      exact ⟨succDate_predDate y m d h1 h2 h3 h4, trivial, trivial, trivial⟩
  | Hour =>
    cases ht with
    | false => rcases hvis rfl with h | h | h <;> exact absurd h (by simp)
    | true =>
      have hV : ValidDT ⟨⟨y, m, d⟩, hh, mm, ss⟩ := by
        simp only [ValidDT]
        exact ⟨h1, h2, h3, h4, h5, h6, h7⟩
      constructor
      · simp only [DateSelector.up, DateSelector.down]
        exact subHour_addHour _ hV
      · simp only [DateSelector.up, DateSelector.down]
        exact addHour_subHour _ hV
  | Minute =>
    cases ht with
    | false => rcases hvis rfl with h | h | h <;> exact absurd h (by simp)
    | true =>
      have hV : ValidDT ⟨⟨y, m, d⟩, hh, mm, ss⟩ := by
        simp only [ValidDT]
        exact ⟨h1, h2, h3, h4, h5, h6, h7⟩
      constructor
      · simp only [DateSelector.up, DateSelector.down]
        exact subMinute_addMinute _ hV
      · simp only [DateSelector.up, DateSelector.down]
        exact addMinute_subMinute _ hV
  | Second =>
    cases ht with
    | false => rcases hvis rfl with h | h | h <;> exact absurd h (by simp)
    | true =>
      have hV : ValidDT ⟨⟨y, m, d⟩, hh, mm, ss⟩ := by
        simp only [ValidDT]
        exact ⟨h1, h2, h3, h4, h5, h6, h7⟩
      constructor
      · simp only [DateSelector.up, DateSelector.down]
        exact subSecond_addSecond _ hV
      · simp only [DateSelector.up, DateSelector.down]
        exact addSecond_subSecond _ hV

/-- Witness for C2 (amended): Day field on the leap day 2024-02-29,
date-only mode. -/
theorem c2_up_down_net_zero_amended_witness :
    ValidDT ⟨⟨2024, 2, 29⟩, 0, 0, 0⟩ ∧
    (((⟨"due date", false, DateTimeField.Day, ⟨⟨2024, 2, 29⟩, 0, 0, 0⟩⟩ :
          DateSelector).up.down).date =
        (⟨"due date", false, DateTimeField.Day,
          ⟨⟨2024, 2, 29⟩, 0, 0, 0⟩⟩ : DateSelector).date ∧
      ((⟨"due date", false, DateTimeField.Day, ⟨⟨2024, 2, 29⟩, 0, 0, 0⟩⟩ :
          DateSelector).down.up).date =
        (⟨"due date", false, DateTimeField.Day,
          ⟨⟨2024, 2, 29⟩, 0, 0, 0⟩⟩ : DateSelector).date) :=
  ⟨by decide, c2_up_down_net_zero_amended _ (by decide) (by decide) (by decide)⟩

/-! ## Claim C8: the visibility invariant of the field ring -/

theorem applySelOp_out_false (op : SelOp) (s : DateSelector) :
    (applySelOp op s).is_out_of_field = false := by
  rcases s with ⟨nm, ht, f, dt⟩
  cases op <;> cases ht <;> cases f <;> rfl

theorem applySelOp_has_time (op : SelOp) (s : DateSelector) :
    (applySelOp op s).has_time = s.has_time := by
  rcases s with ⟨nm, ht, f, dt⟩
  cases op <;> cases ht <;> cases f <;> rfl

theorem applySelSeq_out_false (ops : List SelOp) (s : DateSelector)
    (h : s.is_out_of_field = false) :
    (applySelSeq ops s).is_out_of_field = false := by
  induction ops generalizing s with
  | nil => exact h
  | cons op ops ih => exact ih _ (applySelOp_out_false op s)

theorem applySelSeq_has_time (ops : List SelOp) (s : DateSelector) :
    (applySelSeq ops s).has_time = s.has_time := by
  induction ops generalizing s with
  | nil => rfl
  | cons op ops ih => rw [applySelSeq, ih, applySelOp_has_time]

theorem visible_of_out_false (s : DateSelector) (h1 : s.has_time = false)
    (h2 : s.is_out_of_field = false) :
    s.active_field = DateTimeField.Year ∨
      s.active_field = DateTimeField.Month ∨
      s.active_field = DateTimeField.Day := by
  rcases s with ⟨nm, ht, f, dt⟩
  cases f <;> simp_all [DateSelector.is_out_of_field]

/-- C8: starting from a constructed selector (`new()`/`from()`, both
date-only with active field `Day`), every sequence of `left`, `right`,
`up`, `down` keeps `active_field` visible: `is_out_of_field` is false and
the field stays in {Year, Month, Day}. -/
theorem c8_active_field_never_hidden (ops : List SelOp) (d0 : DateTime) :
    (applySelSeq ops (DateSelector.fromDate d0)).is_out_of_field = false ∧
    ((applySelSeq ops (DateSelector.fromDate d0)).active_field =
        DateTimeField.Year ∨
      (applySelSeq ops (DateSelector.fromDate d0)).active_field =
        DateTimeField.Month ∨
      (applySelSeq ops (DateSelector.fromDate d0)).active_field =
        DateTimeField.Day) := by
  have hout : (applySelSeq ops (DateSelector.fromDate d0)).is_out_of_field
      = false := applySelSeq_out_false ops _ rfl
  refine ⟨hout, visible_of_out_false _ ?_ hout⟩
  rw [applySelSeq_has_time]
  rfl

/-! ## Lemmas: terminal scripts and error propagation -/

theorem runUnits_nil (n : Nat) : runUnits n [] = Except.ok [] := by
  induction n with
  | zero => rfl
  | succ n ih => exact ih

theorem runUnits_error_mem {n : Nat} {us : List (Option IOError)} {e : IOError}
    (h : runUnits n us = Except.error e) : some e ∈ us := by
  induction n, us using runUnits.induct with
  | case1 => simp [runUnits] at h
  | case2 n ih => rw [runUnits_nil] at h; simp at h
  | case3 n us ih => exact List.mem_cons_of_mem _ (ih h)
  | case4 n e' us => simp only [runUnits] at h; cases h; exact List.mem_cons_self _ _

theorem runUnits_ok_mem {n : Nat} {us us' : List (Option IOError)}
    {x : Option IOError} (h : runUnits n us = Except.ok us') (hx : x ∈ us') :
    x ∈ us := by
  induction n, us using runUnits.induct with
  | case1 => simp only [runUnits] at h; cases h; exact hx
  | case2 n ih => rw [runUnits_nil] at h; cases h; exact hx
  | case3 n us ih => exact List.mem_cons_of_mem _ (ih h)
  | case4 n e' us => simp [runUnits] at h

theorem homeT_err_mem {b : Buffer} {us : List (Option IOError)} {e : IOError}
    (h : homeT b us = Step.err e) : some e ∈ us := by
  unfold homeT at h
  repeat' split at h
  all_goals first
    | (simp at h; done)
    | (cases h; solve_by_elim [runUnits_error_mem, runUnits_ok_mem])

theorem homeT_ok_sub {b : Buffer} {us : List (Option IOError)}
    {p : Buffer × List (Option IOError)} (h : homeT b us = Step.ok p) :
    ∀ y ∈ p.2, y ∈ us := by
  unfold homeT at h
  repeat' split at h
  all_goals first
    | (simp at h; done)
    | (cases h; intro y hy; solve_by_elim [runUnits_ok_mem])

theorem endT_err_mem {b : Buffer} {us : List (Option IOError)} {e : IOError}
    (h : endT b us = Step.err e) : some e ∈ us := by
  unfold endT at h
  repeat' split at h
  all_goals first
    | (simp at h; done)
    | (cases h; solve_by_elim [runUnits_error_mem, runUnits_ok_mem])

theorem endT_ok_sub {b : Buffer} {us : List (Option IOError)}
    {p : Buffer × List (Option IOError)} (h : endT b us = Step.ok p) :
    ∀ y ∈ p.2, y ∈ us := by
  unfold endT at h
  repeat' split at h
  all_goals first
    | (simp at h; done)
    | (cases h; intro y hy; solve_by_elim [runUnits_ok_mem])

theorem charT_err_mem {b : Buffer} {x : Char} {us : List (Option IOError)}
    {e : IOError} (h : charT b x us = Step.err e) : some e ∈ us := by
  unfold charT at h
  repeat' split at h
  all_goals first
    | (simp at h; done)
    | (cases h; solve_by_elim [runUnits_error_mem, runUnits_ok_mem])

theorem charT_ok_sub {b : Buffer} {x : Char} {us : List (Option IOError)}
    {p : Buffer × List (Option IOError)} (h : charT b x us = Step.ok p) :
    ∀ y ∈ p.2, y ∈ us := by
  unfold charT at h
  repeat' split at h
  all_goals first
    | (simp at h; done)
    | (cases h; intro y hy; solve_by_elim [runUnits_ok_mem])

theorem backspaceT_err_mem {b : Buffer} {us : List (Option IOError)}
    {e : IOError} (h : backspaceT b us = Step.err e) : some e ∈ us := by
  unfold backspaceT at h
  repeat' split at h
  all_goals first
    | (simp at h; done)
    | (cases h; solve_by_elim [runUnits_error_mem, runUnits_ok_mem])

theorem backspaceT_ok_sub {b : Buffer} {us : List (Option IOError)}
    {p : Buffer × List (Option IOError)} (h : backspaceT b us = Step.ok p) :
    ∀ y ∈ p.2, y ∈ us := by
  unfold backspaceT at h
  repeat' split at h
  all_goals first
    | (simp at h; done)
    | (cases h; intro y hy; solve_by_elim [runUnits_ok_mem])

theorem delT_err_mem {b : Buffer} {us : List (Option IOError)} {e : IOError}
    (h : delT b us = Step.err e) : some e ∈ us := by
  unfold delT at h
  repeat' split at h
  all_goals first
    | (simp at h; done)
    | (cases h; solve_by_elim [runUnits_error_mem, runUnits_ok_mem])

theorem delT_ok_sub {b : Buffer} {us : List (Option IOError)}
    {p : Buffer × List (Option IOError)} (h : delT b us = Step.ok p) :
    ∀ y ∈ p.2, y ∈ us := by
  unfold delT at h
  repeat' split at h
  all_goals first
    | (simp at h; done)
    | (cases h; intro y hy; solve_by_elim [runUnits_ok_mem])

theorem word_forwardT_err_mem {b : Buffer} {us : List (Option IOError)}
    {e : IOError} (h : word_forwardT b us = Step.err e) : some e ∈ us := by
  unfold word_forwardT at h
  repeat' split at h
  all_goals first
    | (simp at h; done)
    | (cases h; solve_by_elim [runUnits_error_mem, runUnits_ok_mem])

theorem word_forwardT_ok_sub {b : Buffer} {us : List (Option IOError)}
    {p : Buffer × List (Option IOError)}
    (h : word_forwardT b us = Step.ok p) : ∀ y ∈ p.2, y ∈ us := by
  unfold word_forwardT at h
  repeat' split at h
  all_goals first
    | (simp at h; done)
    | (cases h; intro y hy; solve_by_elim [runUnits_ok_mem])

theorem word_backwordT_err_mem {b : Buffer} {us : List (Option IOError)}
    {e : IOError} (h : word_backwordT b us = Step.err e) : some e ∈ us := by
  unfold word_backwordT at h
  repeat' split at h
  all_goals first
    | (simp at h; done)
    | (cases h; solve_by_elim [runUnits_error_mem, runUnits_ok_mem])

theorem word_backwordT_ok_sub {b : Buffer} {us : List (Option IOError)}
    {p : Buffer × List (Option IOError)}
    (h : word_backwordT b us = Step.ok p) : ∀ y ∈ p.2, y ∈ us := by
  unfold word_backwordT at h
  repeat' split at h
  all_goals first
    | (simp at h; done)
    | (cases h; intro y hy; solve_by_elim [runUnits_ok_mem])

theorem word_backspaceT_err_mem {b : Buffer} {us : List (Option IOError)}
    {e : IOError} (h : word_backspaceT b us = Step.err e) : some e ∈ us := by
  unfold word_backspaceT at h
  repeat' split at h
  all_goals first
    | (simp at h; done)
    | (cases h; solve_by_elim [runUnits_error_mem, runUnits_ok_mem])

theorem word_backspaceT_ok_sub {b : Buffer} {us : List (Option IOError)}
    {p : Buffer × List (Option IOError)}
    (h : word_backspaceT b us = Step.ok p) : ∀ y ∈ p.2, y ∈ us := by
  unfold word_backspaceT at h
  repeat' split at h
  all_goals first
    | (simp at h; done)
    | (cases h; intro y hy; solve_by_elim [runUnits_ok_mem])

theorem word_deleteT_err_mem {b : Buffer} {us : List (Option IOError)}
    {e : IOError} (h : word_deleteT b us = Step.err e) : some e ∈ us := by
  unfold word_deleteT at h
  repeat' split at h
  all_goals first
    | (simp at h; done)
    | (cases h; solve_by_elim [runUnits_error_mem, runUnits_ok_mem])

theorem word_deleteT_ok_sub {b : Buffer} {us : List (Option IOError)}
    {p : Buffer × List (Option IOError)}
    (h : word_deleteT b us = Step.ok p) : ∀ y ∈ p.2, y ∈ us := by
  unfold word_deleteT at h
  repeat' split at h
  all_goals first
    | (simp at h; done)
    | (cases h; intro y hy; solve_by_elim [runUnits_ok_mem])

theorem leftT_err_mem {b : Buffer} {us : List (Option IOError)} {e : IOError}
    (h : leftT b us = Step.err e) : some e ∈ us := by
  unfold leftT at h
  repeat' split at h
  all_goals first
    | (simp at h; done)
    | (cases h; solve_by_elim [runUnits_error_mem, runUnits_ok_mem])

theorem leftT_ok_sub {b : Buffer} {us : List (Option IOError)}
    {p : Buffer × List (Option IOError)} (h : leftT b us = Step.ok p) :
    ∀ y ∈ p.2, y ∈ us := by
  unfold leftT at h
  repeat' split at h
  all_goals first
    | (simp at h; done)
    | (cases h; intro y hy; solve_by_elim [runUnits_ok_mem])

theorem rightT_err_mem {b : Buffer} {us : List (Option IOError)} {e : IOError}
    (h : rightT b us = Step.err e) : some e ∈ us := by
  unfold rightT at h
  repeat' split at h
  all_goals first
    | (simp at h; done)
    | (cases h; solve_by_elim [runUnits_error_mem, runUnits_ok_mem])

theorem rightT_ok_sub {b : Buffer} {us : List (Option IOError)}
    {p : Buffer × List (Option IOError)} (h : rightT b us = Step.ok p) :
    ∀ y ∈ p.2, y ∈ us := by
  unfold rightT at h
  repeat' split at h
  all_goals first
    | (simp at h; done)
    | (cases h; intro y hy; solve_by_elim [runUnits_ok_mem])

theorem stepDispatch_err_mem {r : Step (Buffer × List (Option IOError))}
    {us : List (Option IOError)} {tl : List (Except IOError Key)}
    {e : IOError}
    (hmem : ∀ e', r = Step.err e' → some e' ∈ us)
    (hsub : ∀ p, r = Step.ok p → ∀ y ∈ p.2, y ∈ us)
    (hih : ∀ b' us', (∀ y ∈ us', y ∈ us) →
      readLineLoop b' tl us' = Res.err e →
      Except.error e ∈ tl ∨ some e ∈ us)
    (h : (match r with
          | Step.err e' => Res.err e'
          | Step.panicked => Res.panicked
          | Step.ok (b', us') => readLineLoop b' tl us') = Res.err e) :
    Except.error e ∈ tl ∨ some e ∈ us := by
  cases r with
  | err e1 =>
    cases h
    exact Or.inr (hmem _ rfl)
  | panicked => simp at h
  | ok p =>
    obtain ⟨b', us'⟩ := p
    exact hih b' us' (fun y hy => hsub _ rfl y hy) h

theorem readLineLoop_err_mem_len : ∀ (n : Nat)
    (ks : List (Except IOError Key)) (b : Buffer)
    (us : List (Option IOError)) (e : IOError), ks.length ≤ n →
    readLineLoop b ks us = Res.err e →
    Except.error e ∈ ks ∨ some e ∈ us := by
  intro n
  induction n with
  | zero =>
    intro ks b us e hlen h
    cases ks with
    | nil => rw [readLineLoop.eq_def] at h; simp at h
    | cons hd tl => simp at hlen
  | succ n ih =>
    intro ks b us e hlen h
    cases ks with
    | nil => rw [readLineLoop.eq_def] at h; simp at h
    | cons hd tl =>
      have hlen' : tl.length ≤ n := by simp at hlen; omega
      rw [readLineLoop.eq_def] at h
      cases hd with
      | error e1 =>
        dsimp only at h
        cases h
        exact Or.inl (List.mem_cons_self _ _)
      | ok k =>
        dsimp only at h
        have hih : ∀ b' us', (∀ y ∈ us', y ∈ us) →
            readLineLoop b' tl us' = Res.err e →
            Except.error e ∈ tl ∨ some e ∈ us := fun b' us' hs hr =>
          (ih tl b' us' e hlen' hr).imp id (fun hm => hs _ hm)
        cases k with
        | Enter =>
          cases hE : b.enter with
          | none => rw [hE] at h; simp at h
          | some b2 => rw [hE] at h; simp at h
        | Home =>
          exact (stepDispatch_err_mem (fun e' hr => homeT_err_mem hr)
            (fun p hr => homeT_ok_sub hr) hih h).imp
            (List.mem_cons_of_mem _) id
        | End =>
          exact (stepDispatch_err_mem (fun e' hr => endT_err_mem hr)
            (fun p hr => endT_ok_sub hr) hih h).imp
            (List.mem_cons_of_mem _) id
        | ArrowRight =>
          exact (stepDispatch_err_mem (fun e' hr => rightT_err_mem hr)
            (fun p hr => rightT_ok_sub hr) hih h).imp
            (List.mem_cons_of_mem _) id
        | ArrowLeft =>
          exact (stepDispatch_err_mem (fun e' hr => leftT_err_mem hr)
            (fun p hr => leftT_ok_sub hr) hih h).imp
            (List.mem_cons_of_mem _) id
        | Backspace =>
          exact (stepDispatch_err_mem (fun e' hr => backspaceT_err_mem hr)
            (fun p hr => backspaceT_ok_sub hr) hih h).imp
            (List.mem_cons_of_mem _) id
        | Del =>
          exact (stepDispatch_err_mem (fun e' hr => delT_err_mem hr)
            (fun p hr => delT_ok_sub hr) hih h).imp
            (List.mem_cons_of_mem _) id
        | Char x =>
          exact (stepDispatch_err_mem (fun e' hr => charT_err_mem hr)
            (fun p hr => charT_ok_sub hr) hih h).imp
            (List.mem_cons_of_mem _) id
        | Escape =>
          dsimp only at h
          cases tl with
          | nil => simp at h
          | cons hd2 tl2 =>
            have hlen2 : tl2.length ≤ n := by simp at hlen; omega
            have hih2 : ∀ b' us', (∀ y ∈ us', y ∈ us) →
                readLineLoop b' tl2 us' = Res.err e →
                Except.error e ∈ tl2 ∨ some e ∈ us := fun b' us' hs hr =>
              (ih tl2 b' us' e hlen2 hr).imp id (fun hm => hs _ hm)
            have hw2 : Except.error e ∈ tl2 ∨ some e ∈ us →
                Except.error e ∈ Except.ok Key.Escape :: hd2 :: tl2 ∨
                  some e ∈ us := fun hor =>
              hor.imp
                (fun hm => List.mem_cons_of_mem _ (List.mem_cons_of_mem _ hm))
                id
            cases hd2 with
            | error e1 =>
              dsimp only at h
              cases h
              exact Or.inl (List.mem_cons_of_mem _ (List.mem_cons_self _ _))
            | ok k2 =>
              dsimp only at h
              split at h
              · exact hw2 (stepDispatch_err_mem
                  (fun e' hr => word_forwardT_err_mem hr)
                  (fun p hr => word_forwardT_ok_sub hr) hih2 h)
              · exact hw2 (stepDispatch_err_mem
                  (fun e' hr => word_backwordT_err_mem hr)
                  (fun p hr => word_backwordT_ok_sub hr) hih2 h)
              · exact hw2 (stepDispatch_err_mem
                  (fun e' hr => word_deleteT_err_mem hr)
                  (fun p hr => word_deleteT_ok_sub hr) hih2 h)
              · exact hw2 (stepDispatch_err_mem
                  (fun e' hr => word_backspaceT_err_mem hr)
                  (fun p hr => word_backspaceT_ok_sub hr) hih2 h)
              · exact hw2 (hih2 b us (fun y hy => hy) h)
        | ArrowUp =>
          dsimp only at h
          split at h
          · simp at h
          · exact (hih b us (fun y hy => hy) h).imp
              (List.mem_cons_of_mem _) id
        | ArrowDown =>
          dsimp only at h
          split at h
          · simp at h
          · exact (hih b us (fun y hy => hy) h).imp
              (List.mem_cons_of_mem _) id
        | Other =>
          exact (hih b us (fun y hy => hy) h).imp
            (List.mem_cons_of_mem _) id

theorem readLineLoop_err_mem {b : Buffer} {ks : List (Except IOError Key)}
    {us : List (Option IOError)} {e : IOError}
    (h : readLineLoop b ks us = Res.err e) :
    Except.error e ∈ ks ∨ some e ∈ us :=
  readLineLoop_err_mem_len ks.length ks b us e (le_refl _) h

theorem selectLoop_err_mem : ∀ (ks : List (Except IOError Key))
    (s : DateSelector) (us : List (Option IOError)) (e : IOError),
    selectLoop s ks us = Res.err e → Except.error e ∈ ks ∨ some e ∈ us := by
  intro ks
  induction ks with
  | nil =>
    intro s us e h
    rw [selectLoop.eq_def] at h
    cases hr : runUnits 4 us with
    | error e1 =>
      simp only [hr] at h
      cases h
      exact Or.inr (runUnits_error_mem hr)
    | ok us1 => simp [hr] at h
  | cons hd tl ih =>
    intro s us e h
    rw [selectLoop.eq_def] at h
    cases hr : runUnits 4 us with
    | error e1 =>
      simp only [hr] at h
      cases h
      exact Or.inr (runUnits_error_mem hr)
    | ok us1 =>
      simp only [hr] at h
      have hup : ∀ x ∈ us1, x ∈ us := fun x hx => runUnits_ok_mem hr hx
      cases hd with
      | error e1 =>
        dsimp only at h
        cases h
        exact Or.inl (List.mem_cons_self _ _)
      | ok k =>
        have hIH : ∀ (s' : DateSelector) (us2 : List (Option IOError)),
            (∀ x ∈ us2, x ∈ us) → selectLoop s' tl us2 = Res.err e →
            Except.error e ∈ Except.ok k :: tl ∨ some e ∈ us := by
          intro s' us2 hsub hrec
          rcases ih s' us2 e hrec with hm | hm
          · exact Or.inl (List.mem_cons_of_mem _ hm)
          · exact Or.inr (hsub _ hm)
        cases k with
        | ArrowLeft =>
          dsimp only at h
          cases hr2 : runUnits 4 us1 with
          | error e2 =>
            simp only [hr2] at h
            cases h
            exact Or.inr (hup _ (runUnits_error_mem hr2))
          | ok us2 =>
            simp only [hr2] at h
            exact hIH _ _ (fun x hx => hup _ (runUnits_ok_mem hr2 hx)) h
        | ArrowRight =>
          dsimp only at h
          cases hr2 : runUnits 4 us1 with
          | error e2 =>
            simp only [hr2] at h
            cases h
            exact Or.inr (hup _ (runUnits_error_mem hr2))
          | ok us2 =>
            simp only [hr2] at h
            exact hIH _ _ (fun x hx => hup _ (runUnits_ok_mem hr2 hx)) h
        | ArrowUp => exact hIH _ _ hup h
        | ArrowDown => exact hIH _ _ hup h
        | Enter =>
          dsimp only at h
          cases hr2 : runUnits 1 us1 with
          | error e2 =>
            simp only [hr2] at h
            cases h
            exact Or.inr (hup _ (runUnits_error_mem hr2))
          | ok us2 => simp [hr2] at h
        | Home => exact hIH _ _ hup h
        | End => exact hIH _ _ hup h
        | Backspace => exact hIH _ _ hup h
        | Del => exact hIH _ _ hup h
        | Escape => exact hIH _ _ hup h
        | Char x => exact hIH _ _ hup h
        | Other => exact hIH _ _ hup h

/-! ## Claims about the blocking loops -/

/-- C10: calling `select_word_from_words` with an empty `items` slice
panics (the `word_count - 1` underflow) before any key is read: it neither
returns a selection nor the cancellation error, for every key script; and
no terminal script whatsoever can make it return a selection. -/
theorem c10_empty_items_panics :
    (∀ (d : String) (ks : List (Except IOError Key)),
      select_word_from_words d [] ⟨ks, []⟩ = Res.panicked) ∧
    (∀ (d : String) (t : TermState) (w : String),
      select_word_from_words d [] t ≠ Res.ok w) := by
  constructor
  · intro d ks
    rfl
  · intro d t w
    simp only [select_word_from_words]
    cases hr : runUnits 1 t.unitResults with
    | error e => simp
    | ok us1 => simp

/-- C3 counterexample: the cancellation outcome of the list picker is the
*same value* `io::Error::new(ErrorKind::Other, "quit")` that a failing
terminal call can produce — pressing `q` and a terminal whose first
`clear_line` fails with that error give byte-for-byte identical results,
so the cancellation outcome is an I/O error, not a distinguished
non-error outcome. -/
theorem c3_counterexample_cancellation_equals_io_error :
    select_word_from_words "d" ["a"] ⟨[Except.ok (Key.Char 'q')], []⟩ =
      Res.err ⟨ErrorKind.other, "quit"⟩ ∧
    select_word_from_words "d" ["a"]
        ⟨[], [some ⟨ErrorKind.other, "quit"⟩]⟩ =
      Res.err ⟨ErrorKind.other, "quit"⟩ := by
  constructor
  · simp only [select_word_from_words, runUnits_nil]
    norm_num
    rw [selectWordLoop.eq_def]
    simp [runUnits_nil]
  · rfl

/-- C3 (amended): on `q`/`Q`/Escape the list picker returns the *error*
outcome `io::Error::new(ErrorKind::Other, "quit")` — cancellation travels
through the same `io::Result` error channel as terminal I/O failures, and
a caller can tell "no selection" apart only by inspecting the error's
kind and message (which an I/O failure could duplicate). -/
theorem c3_quit_returns_other_error_amended (d : String)
    (items : List String) (k : Key) (ks : List (Except IOError Key))
    (h1 : items ≠ [])
    (h2 : k = Key.Char 'q' ∨ k = Key.Char 'Q' ∨ k = Key.Escape) :
    select_word_from_words d items ⟨Except.ok k :: ks, []⟩ =
      Res.err ⟨ErrorKind.other, "quit"⟩ := by
  simp only [select_word_from_words, runUnits_nil]
  rw [if_neg (by simpa using h1)]
  rw [selectWordLoop.eq_def]
  simp only [runUnits_nil]
  rcases h2 with rfl | rfl | rfl <;> rfl

/-- Witness for C3 (amended): pressing `q` on a one-item list. -/
theorem c3_quit_returns_other_error_amended_witness :
    (["a"] : List String) ≠ [] ∧
    select_word_from_words "d" ["a"] ⟨[Except.ok (Key.Char 'Q')], []⟩ =
      Res.err ⟨ErrorKind.other, "quit"⟩ :=
  ⟨by decide, c3_quit_returns_other_error_amended "d" ["a"] _ []
    (by decide) (Or.inr (Or.inl rfl))⟩

/-- C4 counterexample: when the very first `read_key` fails with a broken
pipe, `ask_yes_no` does **not** propagate the error — it panics (the
source calls `term.read_key().unwrap()`), i.e. an abnormal termination,
which the claim explicitly rules out. -/
theorem c4_counterexample_read_key_failure_panics :
    ask_yes_no "proceed?"
        ⟨[Except.error ⟨ErrorKind.brokenPipe, "pipe"⟩], []⟩ = Res.panicked ∧
    (Res.panicked : Res Bool) ≠
      Res.err ⟨ErrorKind.brokenPipe, "pipe"⟩ := by
  constructor
  · simp only [ask_yes_no, runUnits_nil]
    rw [askYesNoLoop.eq_def]
  · simp

/-- C4 (amended): `Buffer::read_line` and `DateSelector::select` propagate
Terminal I/O errors unchanged — a failing `read_key` is returned as-is, a
failure of a terminal call inside a key handler (e.g. the
`move_cursor_right` in `Buffer::char`) is returned as-is, and any error
they return was produced by the terminal (never fabricated or altered).
`ask_yes_no` and `select_word_from_words` propagate errors of their
write/cursor operations, but a failing `read_key` makes them **panic**
(`.unwrap()` in the source) instead of returning the error. -/
theorem c4_error_propagation_amended :
    (∀ (b : Buffer) (ks : List (Except IOError Key)) (e : IOError),
      read_line b ⟨Except.error e :: ks, []⟩ = Res.err e) ∧
    (∀ (b : Buffer) (ks : List (Except IOError Key)) (x : Char)
      (e : IOError), BufInv b →
      read_line b ⟨Except.ok (Key.Char x) :: ks, [none, some e]⟩ =
        Res.err e) ∧
    (∀ (s : DateSelector) (ks : List (Except IOError Key)) (e : IOError),
      s.select ⟨Except.error e :: ks, []⟩ = Res.err e) ∧
    (∀ (b : Buffer) (t : TermState) (e : IOError),
      read_line b t = Res.err e →
        Except.error e ∈ t.keys ∨ some e ∈ t.unitResults) ∧
    (∀ (s : DateSelector) (t : TermState) (e : IOError),
      s.select t = Res.err e →
        Except.error e ∈ t.keys ∨ some e ∈ t.unitResults) ∧
    (∀ (q : String) (ks : List (Except IOError Key)) (e : IOError),
      ask_yes_no q ⟨Except.error e :: ks, []⟩ = Res.panicked) ∧
    (∀ (d : String) (items : List String) (ks : List (Except IOError Key))
      (e : IOError), items ≠ [] →
      select_word_from_words d items ⟨Except.error e :: ks, []⟩ =
        Res.panicked) ∧
    (∀ (q : String) (ks : List (Except IOError Key))
      (us : List (Option IOError)) (e : IOError),
      ask_yes_no q ⟨ks, some e :: us⟩ = Res.err e) ∧
    (∀ (d : String) (items : List String) (ks : List (Except IOError Key))
      (us : List (Option IOError)) (e : IOError),
      select_word_from_words d items ⟨ks, some e :: us⟩ = Res.err e) := by
  refine ⟨?_, ?_, ?_, ?_, ?_, ?_, ?_, ?_, ?_⟩
  · intro b ks e
    simp only [read_line, runUnits_nil]
    rw [readLineLoop.eq_def]
  · intro b ks x e hb
    simp only [read_line]
    have h1 : runUnits 1 [none, some e] =
        Except.ok ([some e] : List (Option IOError)) := rfl
    rw [h1]
    dsimp only
    rw [readLineLoop.eq_def]
    dsimp only
    unfold charT
    rw [if_neg (by simp only [BufInv] at hb; omega)]
    rfl
  · intro s ks e
    simp only [DateSelector.select]
    rw [selectLoop.eq_def]
    simp [runUnits_nil]
  · intro b t e h
    simp only [read_line] at h
    cases hr : runUnits 1 t.unitResults with
    | error e1 =>
      simp only [hr] at h
      cases h
      exact Or.inr (runUnits_error_mem hr)
    | ok us1 =>
      simp only [hr] at h
      exact (readLineLoop_err_mem h).imp id (fun hm => runUnits_ok_mem hr hm)
  · intro s t e h
    simp only [DateSelector.select] at h
    exact selectLoop_err_mem _ _ _ _ h
  · intro q ks e
    simp only [ask_yes_no, runUnits_nil]
    rw [askYesNoLoop.eq_def]
  · intro d items ks e h1
    simp only [select_word_from_words, runUnits_nil]
    rw [if_neg (by simpa using h1)]
    rw [selectWordLoop.eq_def]
    simp [runUnits_nil]
  · intro q ks us e
    rfl
  · intro d items ks us e
    rfl

/-- Witness for C4 (amended): a broken-pipe failure of `read_key` makes
`select_word_from_words` panic on a one-item list. -/
theorem c4_error_propagation_amended_witness :
    (["a"] : List String) ≠ [] ∧
    select_word_from_words "d" ["a"]
        ⟨[Except.error ⟨ErrorKind.brokenPipe, "pipe"⟩], []⟩ =
      Res.panicked :=
  ⟨by decide, c4_error_propagation_amended.2.2.2.2.2.2.1 "d" ["a"] []
    ⟨ErrorKind.brokenPipe, "pipe"⟩ (by decide)⟩

/-- Witness for C10: concrete empty-items call panics. -/
theorem c10_empty_items_panics_witness :
    select_word_from_words "d" [] ⟨[], []⟩ = Res.panicked :=
  c10_empty_items_panics.1 "d" []
